import Mathlib

/-!
Verification development for the rubric converter
(`rubric_converter.py`): a shallow embedding of the cell micro-grammar
(`parse_desc_value` / `format_desc_value` / `parse_criterion_cell` /
`criterion_cell` / `truncate`), the format detector (`is_ims_format`),
and the four schema mappers (`excel_to_rbc`, `rbc_to_excel`,
`ims_to_excel`, `excel_to_ims`), together with theorems settling the
specification's claims about them.

Modelling conventions:
* Python strings are Lean `String`s; most character-level reasoning is
  done on `List Char` via `String.data`.  Only the ASCII whitespace set
  is modelled (Python's `str.strip` and the `\s` class also accept
  exotic Unicode whitespace, which no rubric data uses).
* Python numbers are modelled exactly for integers.  A bracketed token
  that `float()` accepts with a non-integral value is kept as a
  `PyVal.vFloat` carrying its source token: Python would store the float
  and re-print it via `repr`, which is injective and reparses to the
  same float, so carrying the token is observationally equivalent for
  every property studied here.  `float()`'s `inf` / `nan` / underscore
  spellings are not modelled (they never alter any claim's verdict:
  a token my parser rejects is kept verbatim, and such a value
  round-trips exactly like the float that Python would store).
* Spreadsheet cells read back from a file are `str` or NaN; an absent /
  NaN / non-string cell is modelled as `Option.none`.  An empty-string
  cell and a NaN cell are indistinguishable to every function modelled
  here (both parse to `(None, 0)` and both count as blank), so grids
  store plain `String`s with `""` for blank.
-/

/-- Python's `\s` / `str.strip` whitespace, restricted to ASCII
(space, tab, newline, carriage return, vertical tab, form feed). -/
def pyWs (c : Char) : Bool :=
  c = ' ' || c = '\t' || c = '\n' || c = '\r' || c = Char.ofNat 11 || c = Char.ofNat 12

/-- `str.strip()` on a character list: drop whitespace from both ends. -/
def pyTrimL (cs : List Char) : List Char :=
  ((cs.dropWhile pyWs).reverse.dropWhile pyWs).reverse

/-- `str.strip()` on a `String`. -/
def pyStrip (s : String) : String :=
  ⟨pyTrimL s.data⟩

/-- ASCII decimal digit test (`'0' ≤ c ≤ '9'`). -/
def isDigitC (c : Char) : Bool :=
  48 ≤ c.toNat && c.toNat ≤ 57

/-- Numeric value of an ASCII digit character. -/
def digitVal (c : Char) : ℕ :=
  c.toNat - 48

/-- Most-significant-digit-first accumulation of a digit string. -/
def digitsToNat (cs : List Char) : ℕ :=
  cs.foldl (fun a c => a * 10 + digitVal c) 0

/-- Split a list at the first character satisfying `p`: returns the
part before it and, when found, the part after it (separator dropped). -/
def breakOnce (p : Char → Bool) : List Char → List Char × Option (List Char)
  | [] => ([], none)
  | c :: cs =>
    if p c then ([], some cs)
    else
      let r := breakOnce p cs
      (c :: r.1, r.2)

/-- Optional leading sign: returns (negative?, rest). -/
def splitSign (cs : List Char) : Bool × List Char :=
  match cs with
  | c :: rest => if c = '-' then (true, rest) else if c = '+' then (false, rest) else (false, cs)
  | [] => (false, [])

/-- Mantissa of a Python float literal: `digits [. digits]` with at
least one digit overall, as an exact rational. -/
def parseMantissa (cs : List Char) : Option ℚ :=
  match breakOnce (· = '.') cs with
  | (a, none) =>
    if a ≠ [] && a.all isDigitC then some (digitsToNat a : ℚ) else none
  | (a, some b) =>
    if (a ≠ [] || b ≠ []) && a.all isDigitC && b.all isDigitC then
      some ((digitsToNat a : ℚ) + (digitsToNat b : ℚ) / (10 : ℚ) ^ b.length)
    else none

/-- Exponent part of a Python float literal: optional sign, digits. -/
def parseExpInt (cs : List Char) : Option ℤ :=
  let (neg, ds) := splitSign cs
  if ds ≠ [] && ds.all isDigitC then
    some (if neg then -(digitsToNat ds : ℤ) else (digitsToNat ds : ℤ))
  else none

/-- Python's `float(token)` on a trimmed character list, as an exact
rational (decimal literals only; `inf`/`nan`/underscores unmodelled). -/
def pyFloatCore (cs : List Char) : Option ℚ :=
  let (neg, rest) := splitSign cs
  match breakOnce (fun c => c = 'e' || c = 'E') rest with
  | (m, none) =>
    (parseMantissa m).map (fun q => if neg then -q else q)
  | (m, some e) =>
    match parseMantissa m, parseExpInt e with
    | some q, some z => some ((if neg then -q else q) * (10 : ℚ) ^ z)
    | _, _ => none

/-- Python's `float(token)` (which strips surrounding whitespace). -/
def pyFloat (s : String) : Option ℚ :=
  pyFloatCore (pyTrimL s.data)

/-- Decimal digits of `n`, most significant first, with explicit fuel
(structural recursion, so that closed instances evaluate in the
kernel). -/
def natDecAux : ℕ → ℕ → List Char
  | 0, _ => []
  | fuel + 1, n =>
    if n = 0 then [] else natDecAux fuel (n / 10) ++ [Nat.digitChar (n % 10)]

/-- Decimal digits of `m`, most significant first (Python `str(m)`). -/
def natDec (m : ℕ) : String :=
  if m = 0 then "0" else ⟨natDecAux m m⟩

/-- Python `str(n)` for an `int`. -/
def intDec (n : ℤ) : String :=
  if n < 0 then "-" ++ natDec n.natAbs else natDec n.natAbs

/-- A Python scalar as it can appear in a rubric cell record: `None`,
an `int`, a non-integral `float` (kept as its numeral token), or a
`str`. -/
inductive PyVal
  | vNone
  | vInt (n : ℤ)
  | vFloat (tok : String)
  | vStr (s : String)
deriving DecidableEq, Repr

/-- Python `f"{value}"` / `str(value)` for a `PyVal`. -/
def pyValStr : PyVal → String
  | .vNone => "None"
  | .vInt n => intDec n
  | .vFloat t => t
  | .vStr s => s

/-- Python truthiness of an optional string (`None` and `""` falsy):
the `if desc:` tests of the converter. -/
def descTruthy : Option String → Bool
  | none => false
  | some s => s ≠ ""

/-- The `value not in ("", None)` test of `format_desc_value`. -/
def valPresent : PyVal → Bool
  | .vNone => false
  | .vStr s => s ≠ ""
  | _ => true

/-- The bracketed token of `parse_desc_value` turned into a value:
empty token defaults to `0`; a token `float()` accepts becomes an `int`
when integral, else stays a float; anything else is kept verbatim. -/
def tokenToVal (t : String) : PyVal :=
  if t = "" then .vInt 0
  else
    match pyFloat t with
    | some q => if q.den = 1 then .vInt q.num else .vFloat t
    | none => .vStr t

/-- One attempt of the regex `^(.*?)(?:\s*\[(.*?)\])?$` at a fixed
split point: after the lazy group has taken `pre`, greedy `\s*` then
`\[`, a lazy group up to a `\]` that must sit at the very end.
Returns the two groups on success. -/
def tryBracket (pre rest : List Char) : Option (List Char × Option (List Char)) :=
  match rest.dropWhile pyWs with
  | '[' :: r2 =>
    if r2.getLast? = some ']' && !(r2.dropLast.contains '\n') then
      some (pre, some r2.dropLast)
    else none
  | _ => none

/-- Full match of `^(.*?)(?:\s*\[(.*?)\])?$` (Python semantics: `.`
does not cross a newline, the input is already stripped so `$` is end
of string): try the bracket alternative at each split point of the
lazy first group in order, else match the whole input without a
bracket; fail once a newline blocks the first group. -/
def cellMatch : List Char → List Char → Option (List Char × Option (List Char))
  | pre, [] =>
    match tryBracket pre [] with
    | some res => some res
    | none => some (pre, none)
  | pre, c :: cs =>
    match tryBracket pre (c :: cs) with
    | some res => some res
    | none => if c = '\n' then none else cellMatch (pre ++ [c]) cs

/-- `parse_desc_value(cell)`: `(None, 0)` for a non-string / blank
cell, else regex-split into description and bracketed value. -/
def parse_desc_value (cell : Option String) : Option String × PyVal :=
  match cell with
  | none => (none, .vInt 0)
  | some c =>
    if pyStrip c = "" then (none, .vInt 0)
    else
      match cellMatch [] (pyTrimL c.data) with
      | none => (none, .vInt 0)
      | some (g1, g2) =>
        let desc := pyStrip ⟨g1⟩
        (if desc = "" then none else some desc,
         match g2 with
         | none => .vInt 0
         | some t => tokenToVal ⟨t⟩)

/-- `format_desc_value(desc, value)`. -/
def format_desc_value (desc : Option String) (value : PyVal) : String :=
  if descTruthy desc && valPresent value then
    desc.getD "" ++ " [" ++ pyValStr value ++ "]"
  else if descTruthy desc then
    desc.getD ""
  else if valPresent value then
    "[" ++ pyValStr value ++ "]"
  else
    ""

/-- Split a character list at every newline (`str.splitlines`,
restricted to `\n`; after the surrounding strips this is equivalent
for every cell the converter handles). -/
def splitNl : List Char → List (List Char)
  | [] => [[]]
  | c :: rest =>
    match splitNl rest with
    | [] => [[]]
    | h :: t => if c = '\n' then [] :: h :: t else (c :: h) :: t

/-- `parse_criterion_cell(cell)`: first line is the name, the joined
remaining lines are the description, both stripped. -/
def parse_criterion_cell (cell : Option String) : String × String :=
  match cell with
  | none => ("", "")
  | some c =>
    if pyStrip c = "" then ("", "")
    else
      match splitNl c.data with
      | [] => ("", "")
      | l :: ls =>
        (pyStrip ⟨l⟩,
         if ls.isEmpty then "" else pyStrip ⟨List.intercalate ['\n'] ls⟩)

/-- `criterion_cell(name, desc)`: joins a criterion name and optional
description into the two-line label cell. -/
def criterion_cell (name : String) (desc : Option String) : String :=
  if descTruthy desc && pyStrip (desc.getD "") ≠ "" then
    name ++ "\n" ++ pyStrip (desc.getD "")
  else
    name

/-- `truncate(val, n)`. -/
def truncate (val : String) (n : ℕ) : String :=
  if val.length > n then ⟨val.data.take n⟩ else val

/-! ## JSON documents and the format detector -/

/-- Parsed JSON values.  Numbers are modelled as integers (no rubric
property studied here involves fractional JSON numbers); objects are
key-value lists with unique keys, as produced by `json.load`. -/
inductive Json
  | null
  | bool (b : Bool)
  | num (n : ℤ)
  | str (s : String)
  | arr (elts : List Json)
  | obj (fields : List (String × Json))

/-- First binding of a key in an object's field list. -/
def jlookup (kvs : List (String × Json)) (k : String) : Option Json :=
  (kvs.find? (fun p => p.1 = k)).map (·.2)

/-- Python `key in data` on a dict (false for non-dicts). -/
def Json.hasKey : Json → String → Bool
  | .obj kvs, k => (jlookup kvs k).isSome
  | _, _ => false

/-- Python `data.get(key, default)`. -/
def Json.getD : Json → String → Json → Json
  | .obj kvs, k, d => (jlookup kvs k).getD d
  | _, _, d => d

/-- Python `data.get(key) == "literal"` (a missing key yields `None`,
which never equals a string). -/
def Json.eqStr : Json → String → Bool
  | .str t, s => t = s
  | _, _ => false

/-- Python truthiness of a JSON value. -/
def Json.truthy : Json → Bool
  | .null => false
  | .bool b => b
  | .num n => n ≠ 0
  | .str s => s ≠ ""
  | .arr l => !l.isEmpty
  | .obj kvs => !kvs.isEmpty

/-- `is_ims_format(data)`. -/
def is_ims_format (data : Json) : Bool :=
  match data with
  | .obj _ =>
    let has_cf_rubric_criterion := data.hasKey "CFRubricCriterion"
    let has_criteria := data.hasKey "criteria"
    let has_type := (data.getD "type" .null).eqStr "Rubric" || (data.getD "@type" .null).eqStr "Rubric"
    let has_turnitin_keys := data.hasKey "Rubric" || data.hasKey "RubricCriterion"
    (has_cf_rubric_criterion || has_criteria || has_type) && !has_turnitin_keys
  | _ => false

/-! ## The spreadsheet grid -/

/-- The intermediate spreadsheet: a header row of column names and one
data row per criterion.  Blank / NaN cells are `""` (observationally
identical for every modelled consumer). -/
structure Grid where
  columns : List String
  rows : List (List String)
deriving DecidableEq, Repr

/-- Pandas `row.get(col, None)`: the cell under a named column, `none`
when the column is absent. -/
def rowGet (g : Grid) (row : List String) (col : String) : Option String :=
  (g.columns.indexOf? col).bind (fun i => row.get? i)

/-- Python `s.endswith(t)`. -/
def strEndsWith (s t : String) : Bool :=
  t.data.isSuffixOf s.data

/-- Python `s[:-n]` for `n > 0`: drop the last `n` characters. -/
def strDropRight (s : String) (n : ℕ) : String :=
  ⟨s.data.take (s.data.length - n)⟩

/-- `.replace("_", " ")` (single-character pattern, hence a map). -/
def underscoresToSpaces (s : String) : String :=
  ⟨s.data.map (fun c => if c = '_' then ' ' else c)⟩

/-- A single-quote character as a string (used verbatim inside the
truncation warnings). -/
def apos : String :=
  ⟨[Char.ofNat 39]⟩

/-- The warning `"<Kind> name truncated: '<orig>' → '<trunc>'"`. -/
def truncWarning (kind orig trunc : String) : String :=
  kind ++ " name truncated: " ++ apos ++ orig ++ apos ++ " → " ++ apos ++ trunc ++ apos

/-! ## RBC documents -/

/-- One element of the `RubricScale` collection. -/
structure RubricScale where
  id : ℤ
  num : ℤ
  position : ℤ
  value : ℤ
  name : String
  rubric : ℤ
deriving DecidableEq, Repr

/-- One element of the `RubricCriterion` collection. -/
structure RubricCriterion where
  value : ℤ
  id : ℤ
  rubric : ℤ
  name : String
  description : Option String
  criterion_scales : List ℤ
  position : ℤ
  previous_version : Option ℤ
  num : ℤ
deriving DecidableEq, Repr

/-- One element of the `RubricCriterionScale` collection. -/
structure RubricCriterionScale where
  criterion : ℤ
  scale_value : ℤ
  description : Option String
  value : PyVal
  id : ℤ
deriving DecidableEq, Repr

/-- The single element of the `Rubric` collection. -/
structure RubricTop where
  total_points : Option ℤ
  criterion : List ℤ
  id : ℤ
  scoring_method : ℤ
  name : String
  distribute_criterion_percentage : ℤ
  rubric_group : Option ℤ
  is_starred : ℤ
  deleted : ℤ
  criterion_scales_all : List ℤ
  scale_values : List ℤ
  papers_scored : ℤ
  owner : ℤ
  cv_loaded : String
  description : Option String
deriving DecidableEq, Repr

/-- A parsed `.rbc` document: the four top-level collections. -/
structure RbcDoc where
  rubric : List RubricTop
  criteria : List RubricCriterion
  scales : List RubricScale
  criterionScales : List RubricCriterionScale
deriving DecidableEq, Repr

/-- Result of an Excel→RBC conversion: the document written to disk
plus the collected truncation warnings. -/
structure ConvResult where
  doc : RbcDoc
  warnings : List String
deriving DecidableEq, Repr

/-! ## Excel → RBC (`excel_to_rbc`) -/

/-- First-occurrence deduplication (`dict.fromkeys`), with the set of
names already seen carried explicitly. -/
def dedupGo (seen : List String) : List String → List String
  | [] => []
  | x :: xs => if seen.contains x then dedupGo seen xs else x :: dedupGo (seen ++ [x]) xs

/-- `list(dict.fromkeys(names))`: drop later duplicates, keep order. -/
def dedupKeepFirst (l : List String) : List String :=
  dedupGo [] l

/-- The synthetic scale identifier for a (deduplicated) scale name:
the scale counter starts at 1,000,000 and increments per scale. -/
def scaleIdOf (scaleNames : List String) (n : String) : ℤ :=
  1000000 + (scaleNames.indexOf n : ℤ)

/-- The criterion-label column header. -/
def critColumn : String :=
  "Criterion (name and description)"

/-- The 15-character scale-column suffix (with its leading space). -/
def scaleColSfx : String :=
  " (desc [value])"

/-- `excel_to_rbc(input_excel, output_rbc, rubric_name_override)`,
modelled on its pure core: `stem` is the input file's base name without
extension (the file-system steps around it are plumbing), `g` the grid
read from the workbook.  Returns the document that is written plus the
collected truncation warnings, in emission order.  The three identifier
counters seeded at 1,000,000 / 2,000,000 / 3,000,000 are laid out
arithmetically: every row consumes exactly one criterion id and one
cell id per scale, so the running cell counter at row `i`, scale `j`
is `3000000 + i*S + j`. -/
def excel_to_rbc (stem : String) (override : Option String) (g : Grid) : ConvResult :=
  let raw := underscoresToSpaces stem
  let overTruthy := descTruthy override
  let name0 := if overTruthy then override.getD "" else raw
  let rubricName := truncate name0 30
  let w0 : List String :=
    if overTruthy && rubricName ≠ name0 then [truncWarning "Rubric" name0 rubricName]
    else if !overTruthy && rubricName ≠ raw then [truncWarning "Rubric" raw rubricName]
    else []
  let rawScaleNames := (g.columns.filter (fun c => strEndsWith c "(desc [value])")).map
      (fun c => strDropRight c 15)
  let scaleWs := (rawScaleNames.filter (fun n0 => truncate n0 25 ≠ n0)).map
      (fun n0 => truncWarning "Scale" n0 (truncate n0 25))
  let scaleNames := dedupKeepFirst (rawScaleNames.map (fun n0 => truncate n0 25))
  let S := scaleNames.length
  let scaleRecords := scaleNames.enum.map (fun p =>
      ({ id := 1000000 + (p.1 : ℤ), num := (p.1 : ℤ) + 1, position := (p.1 : ℤ) + 1,
         value := 0, name := p.2, rubric := 1 } : RubricScale))
  let critWs := (g.rows.map (fun row =>
      (parse_criterion_cell (rowGet g row critColumn)).1)).filterMap
      (fun n0 => if truncate n0 13 ≠ n0 then some (truncWarning "Criterion" n0 (truncate n0 13)) else none)
  let cells := g.rows.enum.flatMap (fun p =>
      scaleNames.enum.map (fun q =>
        let pv := parse_desc_value (rowGet g p.2 (q.2 ++ scaleColSfx))
        ({ criterion := 2000000 + (p.1 : ℤ), scale_value := scaleIdOf scaleNames q.2,
           description := pv.1, value := pv.2,
           id := 3000000 + ((p.1 * S + q.1 : ℕ) : ℤ) } : RubricCriterionScale)))
  let criteria := g.rows.enum.map (fun p =>
      let parsed := parse_criterion_cell (rowGet g p.2 critColumn)
      ({ value := 0, id := 2000000 + (p.1 : ℤ), rubric := 1,
         name := truncate parsed.1 13,
         description := if parsed.2 = "" then none else some parsed.2,
         criterion_scales := scaleNames.enum.map (fun q => (3000000 + ((p.1 * S + q.1 : ℕ) : ℤ) : ℤ)),
         position := (p.1 : ℤ) + 1, previous_version := none,
         num := (p.1 : ℤ) + 1 } : RubricCriterion))
  let top : RubricTop :=
    { total_points := none, criterion := criteria.map (·.id), id := 1, scoring_method := 4,
      name := rubricName, distribute_criterion_percentage := 0, rubric_group := none,
      is_starred := 0, deleted := 0, criterion_scales_all := cells.map (·.id),
      scale_values := scaleRecords.map (·.id), papers_scored := 0, owner := 0,
      cv_loaded := "1", description := none }
  { doc := { rubric := [top], criteria := criteria, scales := scaleRecords,
             criterionScales := cells },
    warnings := w0 ++ scaleWs ++ critWs }

/-! ## RBC → Excel (`rbc_to_excel`) -/

/-- Python `d[k] = v` on an association list: replace in place when the
key exists, else append (dict insertion-order semantics). -/
def upsert {α : Type} (l : List (ℤ × α)) (k : ℤ) (v : α) : List (ℤ × α) :=
  if l.any (fun p => p.1 = k) then
    l.map (fun p => if p.1 = k then (k, v) else p)
  else l ++ [(k, v)]

/-- Association-list lookup (Python `d.get(k)`). -/
def alookup {α : Type} (l : List (ℤ × α)) (k : ℤ) : Option α :=
  (l.find? (fun p => p.1 = k)).map (·.2)

/-- Stable insertion by scale `position` (`sorted(..., key=position)`):
an element is placed before the first strictly greater position, after
any equal one already present. -/
def insertByPos (x : RubricScale) : List RubricScale → List RubricScale
  | [] => [x]
  | y :: ys => if y.position ≤ x.position then y :: insertByPos x ys else x :: y :: ys

/-- Stable sort of the scale records by `position` (left fold keeps the
encounter order among equal positions). -/
def sortByPos (l : List RubricScale) : List RubricScale :=
  l.foldl (fun acc x => insertByPos x acc) []

/-- `rbc_to_excel(input_rbc, output_excel)` on an already-parsed RBC
document (a typed `RbcDoc` always carries the `Rubric` key, so the
source's `is_ims_format` delegation does not fire on this view; the
IMS path is modelled separately by `ims_to_excel`). -/
def rbc_to_excel (d : RbcDoc) : Grid :=
  let critDict := d.criteria.foldl (fun acc c => upsert acc c.id c) []
  let scaleDict := d.scales.foldl (fun acc s => upsert acc s.id s) []
  let csMap := d.criterionScales.foldl (fun acc cs =>
      let inner := (alookup acc cs.criterion).getD []
      upsert acc cs.criterion (upsert inner cs.scale_value cs)) []
  let sorted := sortByPos (scaleDict.map (·.2))
  let columns := critColumn :: sorted.map (fun s => s.name ++ scaleColSfx)
  let rows := critDict.map (fun p =>
      criterion_cell p.2.name p.2.description ::
        sorted.map (fun s =>
          match (alookup csMap p.2.id).bind (fun inner => alookup inner s.id) with
          | some cs => format_desc_value cs.description cs.value
          | none => format_desc_value (some "") (.vStr "")))
  { columns := columns, rows := rows }

/-! ## IMS → Excel (`ims_to_excel`) -/

/-- Elements of a JSON array (`[]` for non-arrays; the theorems below
restrict to well-typed documents, where Python would otherwise raise). -/
def Json.asArr : Json → List Json
  | .arr l => l
  | _ => []

/-- A JSON string's text (`""` for non-strings; well-typedness of the
fields involved is a hypothesis of the theorems below). -/
def jsStr : Json → String
  | .str s => s
  | _ => ""

/-- The criteria collection `ims_to_excel` operates on: the value under
`CFRubricCriterion` when that key is present, else `criteria` (default
empty list). -/
def imsSelected (data : Json) : Json :=
  if data.hasKey "CFRubricCriterion" then data.getD "CFRubricCriterion" .null
  else data.getD "criteria" (.arr [])

/-- A criterion's level list: `CFRubricCriterionLevels` takes
precedence over legacy `levels`. -/
def levelsOfCriterion (c : Json) : List Json :=
  if c.hasKey "CFRubricCriterionLevels" then (c.getD "CFRubricCriterionLevels" .null).asArr
  else (c.getD "levels" (.arr [])).asArr

/-- The running maximum of levels per criterion. -/
def maxLevels (cs : List Json) : ℕ :=
  cs.foldl (fun m c => max m (levelsOfCriterion c).length) 0

/-- `criterion.get('Description') or criterion.get('title', '')`. -/
def critNameOf (c : Json) : String :=
  let a := c.getD "Description" .null
  jsStr (if a.truthy then a else c.getD "title" (.str ""))

/-- `level.get('Description') or level.get('description', '')`. -/
def levelDescOf (l : Json) : String :=
  let a := l.getD "Description" .null
  jsStr (if a.truthy then a else l.getD "description" (.str ""))

/-- `level.get('score') or level.get('points', 0)`, with a string
score converted through `float()` (integral floats to `int`, failures
to `0`). -/
def pointsOf (l : Json) : PyVal :=
  let s0 := l.getD "score" .null
  match (if s0.truthy then s0 else l.getD "points" (.num 0)) with
  | .str t =>
    (match pyFloat t with
     | some q => if q.den = 1 then .vInt q.num else .vFloat t
     | none => .vInt 0)
  | .num n => .vInt n
  | .null => .vNone
  | .bool b => .vStr (if b then "True" else "False")
  | .arr _ => .vStr "\x5b...\x5d"
  | .obj _ => .vStr "\x7b...\x7d"

/-- `f"{level_title}: {desc}"` when both present, else whichever is. -/
def fullDescOf (l : Json) : String :=
  let t := jsStr (l.getD "title" (.str ""))
  let d := levelDescOf l
  if t ≠ "" && d ≠ "" then t ++ ": " ++ d
  else if t ≠ "" then t
  else d

/-- The grid cell a level is rendered into. -/
def cellOfLevel (l : Json) : String :=
  format_desc_value (some (fullDescOf l)) (pointsOf l)

/-- `ims_to_excel(input_ims, output_excel)` on the parsed document:
either the written grid or the raised input error. -/
def ims_to_excel (data : Json) : Except String Grid :=
  let cd := imsSelected data
  if !cd.truthy then .error "No criteria found in IMS format file"
  else
    let cs := cd.asArr
    let columns := critColumn ::
      (List.range (maxLevels cs)).map (fun i => "Level " ++ natDec (i + 1) ++ scaleColSfx)
    let rows := cs.map (fun c =>
      let row := criterion_cell (critNameOf c) (some (jsStr (c.getD "description" (.str "")))) ::
        (levelsOfCriterion c).map cellOfLevel
      row ++ List.replicate (columns.length - row.length) "")
    .ok { columns := columns, rows := rows }

/-! ## Excel → IMS (`excel_to_ims`) -/

/-- A CFRubric level record.  The freshly generated UUID, the constant
placeholder URI and the wall-clock timestamp are not data-model
content (random / time-dependent I/O) and are omitted from the
embedding. -/
structure CfLevel where
  score : String
  position : ℕ
  Description : String
deriving DecidableEq, Repr

/-- A CFRubric criterion record (UUID / URI / timestamp omitted as
above). -/
structure CfCriterion where
  position : ℤ
  Description : String
  CFRubricCriterionLevels : List CfLevel
deriving DecidableEq, Repr

/-- A legacy-format level record. -/
structure LegacyLevel where
  id : String
  title : String
  description : String
  points : PyVal
deriving DecidableEq, Repr

/-- A legacy-format criterion record. -/
structure LegacyCriterion where
  id : String
  title : String
  description : String
  levels : List LegacyLevel
deriving DecidableEq, Repr

/-- The document `excel_to_ims` writes: CFRubric by default, legacy
otherwise (document-level UUID / URI / timestamp omitted). -/
inductive ImsDoc
  | cf (Title : String) (CFRubricCriterion : List CfCriterion)
  | legacy (title : String) (id : String) (criteria : List LegacyCriterion)
deriving DecidableEq, Repr

/-- The CF levels of one grid row: empty (NaN or blank-string) cells
are skipped outright, and `position` advances only on emitted levels. -/
def cfLevels (g : Grid) (row : List String) : List String → ℕ → List CfLevel
  | [], _ => []
  | col :: cols, pos =>
    match rowGet g row col with
    | none => cfLevels g row cols pos
    | some cell =>
      if pyStrip cell = "" then cfLevels g row cols pos
      else
        let pv := parse_desc_value (some cell)
        { score := pyValStr pv.2, position := pos,
          Description := (pv.1).getD "" } :: cfLevels g row cols (pos + 1)

/-- First whitespace-separated word of a string (`s.split()[0]`). -/
def firstWord (s : String) : String :=
  ⟨(s.data.dropWhile pyWs).takeWhile (fun c => !pyWs c)⟩

/-- The legacy levels of one grid row (`critIdx` is the 0-based row
index used in the synthesized identifiers). -/
def legacyLevels (g : Grid) (row : List String) (critIdx : ℕ) : List String → ℕ → List LegacyLevel
  | [], _ => []
  | col :: cols, pos =>
    match rowGet g row col with
    | none => legacyLevels g row critIdx cols pos
    | some cell =>
      if pyStrip cell = "" then legacyLevels g row critIdx cols pos
      else
        let pv := parse_desc_value (some cell)
        let d := (pv.1).getD ""
        let split := breakOnce (· = ':') d.data
        let titleDesc :=
          if d ≠ "" && split.2.isSome then
            (pyStrip ⟨split.1⟩, pyStrip ⟨(split.2).getD []⟩)
          else if d ≠ "" then
            (firstWord d, d)
          else
            ("Level " ++ natDec (pos + 1), d)
        { id := "criterion-" ++ natDec (critIdx + 1) ++ "-level-" ++ natDec (pos + 1),
          title := titleDesc.1, description := titleDesc.2,
          points := pv.2 } :: legacyLevels g row critIdx cols (pos + 1)

/-- `rubric_name.lower().replace(' ', '-')` (ASCII lowering). -/
def lowerDash (s : String) : String :=
  ⟨s.data.map (fun c => if c = ' ' then '-' else c.toLower)⟩

/-- `excel_to_ims(input_excel, output_ims, rubric_name_override,
use_cf_format)` on its pure core (`stem` as in `excel_to_rbc`). -/
def excel_to_ims (stem : String) (override : Option String) (g : Grid)
    (use_cf_format : Bool) : ImsDoc :=
  let raw := underscoresToSpaces stem
  let rubricName := if descTruthy override then override.getD "" else raw
  let levelCols := g.columns.filter (fun c => strEndsWith c "(desc [value])")
  if use_cf_format then
    .cf rubricName (g.rows.enum.map (fun p =>
      let parsed := parse_criterion_cell (rowGet g p.2 critColumn)
      { position := (p.1 : ℤ) + 1, Description := parsed.1,
        CFRubricCriterionLevels := cfLevels g p.2 levelCols 0 }))
  else
    .legacy rubricName ("https://example.edu/rubrics/" ++ lowerDash rubricName)
      (g.rows.enum.map (fun p =>
        let parsed := parse_criterion_cell (rowGet g p.2 critColumn)
        { id := "criterion-" ++ natDec (p.1 + 1), title := parsed.1,
          description := parsed.2,
          levels := legacyLevels g p.2 p.1 levelCols 0 }))

/-- The criteria of a CFRubric-format output document (`[]` on the
legacy variant, which carries no CFRubric criteria). -/
def ImsDoc.cfCriteria : ImsDoc → List CfCriterion
  | .cf _ cs => cs
  | .legacy _ _ _ => []

/-- A rubric document whose two scales (distinct ids 10 and 20) share
the display name `"A"`: legal RBC data on which the Excel round trip
collapses the scales. -/
def dupScaleDoc : RbcDoc :=
  { rubric := [{ total_points := none, criterion := [1], id := 1, scoring_method := 4,
                 name := "R", distribute_criterion_percentage := 0, rubric_group := none,
                 is_starred := 0, deleted := 0, criterion_scales_all := [100, 101],
                 scale_values := [10, 20], papers_scored := 0, owner := 0, cv_loaded := "1",
                 description := none }],
    criteria := [{ value := 0, id := 1, rubric := 1, name := "C", description := none,
                   criterion_scales := [100, 101], position := 1, previous_version := none,
                   num := 1 }],
    scales := [{ id := 10, num := 1, position := 1, value := 0, name := "A", rubric := 1 },
               { id := 20, num := 2, position := 2, value := 0, name := "A", rubric := 1 }],
    criterionScales := [{ criterion := 1, scale_value := 10, description := some "hi",
                          value := .vInt 3, id := 100 },
                        { criterion := 1, scale_value := 20, description := none,
                          value := .vInt 0, id := 101 }] }

/-- The same document with the second scale renamed to `"B"`: all
round-trip count invariants hold on it. -/
def okScaleDoc : RbcDoc :=
  { rubric := dupScaleDoc.rubric,
    criteria := dupScaleDoc.criteria,
    scales := [{ id := 10, num := 1, position := 1, value := 0, name := "A", rubric := 1 },
               { id := 20, num := 2, position := 2, value := 0, name := "B", rubric := 1 }],
    criterionScales := dupScaleDoc.criterionScales }

/-! ## Domain predicates used by the theorems -/

/-- Descriptions for which the round-trip theorem is stated: absent,
empty (the collapsing case), or a nonempty already-stripped single-line
string with no `[` (a `[` in the description would let the regex bind
an earlier bracket on reparse). -/
def descOKb : Option String → Bool
  | none => true
  | some d =>
    d = "" ||
    (pyStrip d = d && !(d.data.contains '\n') && !(d.data.contains '['))

/-- Values for which the round-trip theorem is stated: exactly the
canonical outputs of `parse_desc_value`'s value channel — an integer, a
newline-free token that `float()` accepts non-integrally, or a
nonempty newline-free token that `float()` rejects. -/
def valOKb : PyVal → Bool
  | .vNone => false
  | .vInt _ => true
  | .vFloat t =>
    (match pyFloat t with
     | some q => decide (q.den ≠ 1)
     | none => false) && !(t.data.contains '\n')
  | .vStr s => s ≠ "" && (pyFloat s).isNone && !(s.data.contains '\n')

/-- The description after a format/parse round trip: an empty string
collapses to `none`, everything else is preserved. -/
def collapseDesc : Option String → Option String
  | none => none
  | some d => if d = "" then none else some d

/-- A JSON field that is absent, `null`, or a string (the shapes on
which the Python string handling does not raise). -/
def strFieldOk (j : Json) (k : String) : Bool :=
  match j.getD k .null with
  | .null => true
  | .str _ => true
  | _ => false

/-- Well-typedness of one IMS level object. -/
def levelWF (l : Json) : Bool :=
  (match l with | .obj _ => true | _ => false) &&
  strFieldOk l "Description" && strFieldOk l "description" && strFieldOk l "title" &&
  (match l.getD "score" .null with
   | .null => true | .str _ => true | .num _ => true | _ => false) &&
  (match l.getD "points" .null with
   | .null => true | .str _ => true | .num _ => true | _ => false)

/-- Well-typedness of one IMS criterion object (its level collections
are arrays of well-typed level objects). -/
def criterionWF (c : Json) : Bool :=
  (match c with | .obj _ => true | _ => false) &&
  strFieldOk c "Description" && strFieldOk c "title" && strFieldOk c "description" &&
  (!(c.hasKey "CFRubricCriterionLevels") ||
    (match c.getD "CFRubricCriterionLevels" .null with | .arr _ => true | _ => false)) &&
  (!(c.hasKey "levels") ||
    (match c.getD "levels" .null with | .arr _ => true | _ => false)) &&
  (levelsOfCriterion c).all levelWF

/-- Well-typedness of an IMS document for `ims_to_excel`: the selected
criteria collection is either an array of well-typed criteria or falsy
(on any other shape Python raises a type error rather than the
modelled input error). -/
def imsWF (d : Json) : Bool :=
  match imsSelected d with
  | .arr cs => cs.all criterionWF
  | j => !j.truthy

/-- A level whose rendered cell is blank: empty combined
description/title and a `None` score/points.  (`pointsOf` never yields
`vStr ""`: a string score is always converted, with failures mapped to
`0`.) -/
def levelBlank (l : Json) : Bool :=
  fullDescOf l = "" && decide (pointsOf l = PyVal.vNone)

/-- The C5 counterexample document: one criterion with one level whose
`points` is `null` and which has no description or title, so its
rendered cell is empty. -/
def blankLevelDoc : Json :=
  Json.obj [("criteria", Json.arr
    [Json.obj [("levels", Json.arr [Json.obj [("points", Json.null)]])]])]

/-! ## Claim C4: formatting an absent description with value 0 -/

/-- C4, counterexample.  The claim says `format_cell(none, 0)` is the
empty string; in the code `0 not in ("", None)` holds, so the value
branch fires and the output is `"[0]"`. -/
theorem c4_counterexample : format_desc_value none (PyVal.vInt 0) ≠ "" := by
  decide

/-- C4, amended: `format_cell` on an absent description and value `0`
produces `"[0]"` (not the empty string), and that reparses via
`parse_cell` to `(none, 0)`; the empty string is produced only when the
value is `""`/`None` as well as the description. -/
theorem c4_amended :
    format_desc_value none (PyVal.vInt 0) = "[0]" ∧
    parse_desc_value (some (format_desc_value none (PyVal.vInt 0))) = (none, PyVal.vInt 0) ∧
    format_desc_value none PyVal.vNone = "" ∧
    format_desc_value none (PyVal.vStr "") = "" := by
  decide

/-! ## Claim C3: the format detector -/

/-- C3: `is_ims_format` returns true iff the document is a JSON object
with a `CFRubricCriterion` key, a `criteria` key, or a `type`/`@type`
field equal to `"Rubric"`, and with neither a `Rubric` nor a
`RubricCriterion` key; in particular a document with both `Rubric` and
`criteria` keys is classified RBC, and non-object input is never
IMS. -/
theorem c3_is_ims_format_correct :
    (∀ j : Json, is_ims_format j = true ↔
      ((j.hasKey "CFRubricCriterion" = true ∨ j.hasKey "criteria" = true ∨
        (j.getD "type" Json.null).eqStr "Rubric" = true ∨
        (j.getD "@type" Json.null).eqStr "Rubric" = true) ∧
       j.hasKey "Rubric" = false ∧ j.hasKey "RubricCriterion" = false ∧
       ∃ kvs, j = Json.obj kvs)) ∧
    (∀ j : Json, j.hasKey "Rubric" = true → j.hasKey "criteria" = true →
      is_ims_format j = false) ∧
    (∀ j : Json, (∀ kvs, j ≠ Json.obj kvs) → is_ims_format j = false) := by
  refine ⟨fun j => ?_, fun j h1 h2 => ?_, fun j h => ?_⟩
  · cases j <;>
      simp [is_ims_format, Json.hasKey, Bool.or_eq_true, Bool.and_eq_true,
        Bool.not_eq_true'] <;> tauto
  · cases j <;> simp [Json.hasKey] at h1 ⊢ <;>
      simp [is_ims_format, Json.hasKey, h1]
  · cases j <;> simp [is_ims_format] <;> exact absurd rfl (h _)

/-- C3, witness: a document with both `Rubric` and `criteria` keys is
not IMS (via the theorem), a lone `CFRubricCriterion` document is IMS,
and a non-object is not. -/
theorem c3_witness :
    is_ims_format (Json.obj [("Rubric", Json.arr []), ("criteria", Json.arr [])]) = false ∧
    is_ims_format (Json.obj [("CFRubricCriterion", Json.arr [])]) = true ∧
    is_ims_format (Json.str "Rubric") = false :=
  ⟨c3_is_ims_format_correct.2.1 _ (by decide) (by decide),
   by decide,
   c3_is_ims_format_correct.2.2 _ (by intro kvs h; cases h)⟩

section C1Lemmas

lemma isDigitC_digitChar {d : ℕ} (h : d < 10) : isDigitC (Nat.digitChar d) = true := by
  interval_cases d <;> decide

lemma digitVal_digitChar {d : ℕ} (h : d < 10) : digitVal (Nat.digitChar d) = d := by
  interval_cases d <;> decide

lemma toNat_lt_of_pyWs {c : Char} (h : pyWs c = true) : c.toNat < 48 := by
  simp only [pyWs, Bool.or_eq_true, decide_eq_true_eq] at h
  rcases h with ((((rfl | rfl) | rfl) | rfl) | rfl) | rfl <;> decide

lemma pyWs_of_digitC {c : Char} (h : isDigitC c = true) : pyWs c = false := by
  cases hw : pyWs c
  · rfl
  · exfalso
    have h1 := toNat_lt_of_pyWs hw
    simp only [isDigitC, Bool.and_eq_true, decide_eq_true_eq] at h
    omega

lemma ne_plus_of_digitC {c : Char} (h : isDigitC c = true) : c ≠ '+' := by
  rintro rfl; simp [isDigitC] at h

lemma ne_minus_of_digitC {c : Char} (h : isDigitC c = true) : c ≠ '-' := by
  rintro rfl; simp [isDigitC] at h

lemma not_e_of_digitC {c : Char} (h : isDigitC c = true) :
    (c = 'e' || c = 'E' : Bool) = false := by
  have h1 : c ≠ 'e' := by rintro rfl; simp [isDigitC] at h
  have h2 : c ≠ 'E' := by rintro rfl; simp [isDigitC] at h
  simp [h1, h2]

lemma not_dot_of_digitC {c : Char} (h : isDigitC c = true) : (decide (c = '.')) = false := by
  rw [decide_eq_false_iff_not]
  rintro rfl; simp [isDigitC] at h

lemma digitsToNat_rev_map (L : List ℕ) (h : ∀ d ∈ L, d < 10) :
    digitsToNat (L.reverse.map Nat.digitChar) = Nat.ofDigits 10 L := by
  induction L with
  | nil => simp [digitsToNat]
  | cons a L ih =>
    have ha : a < 10 := h a (by simp)
    have hL : ∀ d ∈ L, d < 10 := fun d hd => h d (by simp [hd])
    simp only [List.reverse_cons, List.map_append, List.map_cons, List.map_nil,
      digitsToNat, List.foldl_append, List.foldl_cons, List.foldl_nil] at *
    rw [ih hL, digitVal_digitChar ha, Nat.ofDigits_cons]
    ring

lemma natDecAux_eq_digits :
    ∀ (fuel n : ℕ), n ≤ fuel → natDecAux fuel n = (Nat.digits 10 n).reverse.map Nat.digitChar := by
  intro fuel
  induction fuel with
  | zero =>
    intro n hn
    interval_cases n
    simp [natDecAux, Nat.digits_zero]
  | succ fuel ih =>
    intro n hn
    by_cases h0 : n = 0
    · subst h0
      simp [natDecAux, Nat.digits_zero]
    · rw [natDecAux, if_neg h0,
        ih (n / 10) (by omega),
        Nat.digits_def' (by norm_num : 1 < 10) (Nat.pos_of_ne_zero h0)]
      simp

lemma natDec_data (m : ℕ) (hm : m ≠ 0) :
    (natDec m).data = (Nat.digits 10 m).reverse.map Nat.digitChar := by
  rw [natDec, if_neg hm]
  exact natDecAux_eq_digits m m le_rfl

lemma natDec_all_digits (m : ℕ) : (natDec m).data.all isDigitC = true := by
  by_cases hm : m = 0
  · subst hm; decide
  · rw [natDec_data m hm, List.all_eq_true]
    intro c hc
    rcases List.mem_map.mp (by simpa using hc) with ⟨d, hd, rfl⟩
    exact isDigitC_digitChar (Nat.digits_lt_base (by norm_num) (List.mem_reverse.mp (by simpa using hd)))

lemma digitsToNat_natDec (m : ℕ) : digitsToNat (natDec m).data = m := by
  by_cases hm : m = 0
  · subst hm; decide
  · rw [natDec_data m hm, digitsToNat_rev_map _ (fun d hd => Nat.digits_lt_base (by norm_num) hd),
      Nat.ofDigits_digits]

lemma natDec_ne_empty (m : ℕ) : (natDec m).data ≠ [] := by
  by_cases hm : m = 0
  · subst hm; decide
  · rw [natDec_data m hm]
    simp [Nat.digits_ne_nil_iff_ne_zero, hm]

end C1Lemmas

section C1Float

lemma str_ne_empty_of_data {s : String} (h : s.data ≠ []) : s ≠ "" :=
  fun he => h (by rw [he])

lemma breakOnce_none (p : Char → Bool) (l : List Char) (h : ∀ c ∈ l, p c = false) :
    breakOnce p l = (l, none) := by
  induction l with
  | nil => rfl
  | cons c cs ih =>
    have hc := h c (by simp)
    simp [breakOnce, hc, ih (fun x hx => h x (by simp [hx]))]

lemma dropWhile_eq_self_of_all {p : Char → Bool} {l : List Char}
    (h : ∀ c ∈ l, p c = false) : l.dropWhile p = l := by
  cases l with
  | nil => rfl
  | cons c cs => simp [List.dropWhile_cons, h c (by simp)]

lemma pyTrimL_eq_self_of_all {l : List Char} (h : ∀ c ∈ l, pyWs c = false) :
    pyTrimL l = l := by
  unfold pyTrimL
  rw [dropWhile_eq_self_of_all h,
    dropWhile_eq_self_of_all (fun c hc => h c (List.mem_reverse.mp hc)), List.reverse_reverse]

lemma splitSign_no_sign {l : List Char} (h : ∀ c, l.head? = some c → (c ≠ '+' ∧ c ≠ '-')) :
    splitSign l = (false, l) := by
  cases l with
  | nil => rfl
  | cons c cs =>
    obtain ⟨h1, h2⟩ := h c rfl
    simp [splitSign, h1, h2]

lemma parseMantissa_digits {l : List Char} (hne : l ≠ []) (hd : l.all isDigitC = true) :
    parseMantissa l = some (digitsToNat l : ℚ) := by
  have hall := List.all_eq_true.mp hd
  have hb := breakOnce_none (fun c => decide (c = '.')) l
    (fun c hc => not_dot_of_digitC (hall c hc))
  simp only [parseMantissa, hb]
  simp [hne, hd]

lemma pyFloatCore_digits {l : List Char} (hne : l ≠ []) (hd : l.all isDigitC = true) :
    pyFloatCore l = some (digitsToNat l : ℚ) := by
  have hall := List.all_eq_true.mp hd
  have hs : splitSign l = (false, l) := by
    apply splitSign_no_sign
    intro c hc
    have hcm : c ∈ l := by
      cases l with
      | nil => simp at hc
      | cons a t =>
        simp only [List.head?_cons, Option.some.injEq] at hc
        simp [hc]
    exact ⟨ne_plus_of_digitC (hall c hcm), ne_minus_of_digitC (hall c hcm)⟩
  have hb := breakOnce_none (fun c => c = 'e' || c = 'E') l
    (fun c hc => not_e_of_digitC (hall c hc))
  simp only [pyFloatCore, hs, hb, parseMantissa_digits hne hd, Option.map_some]
  simp

lemma pyFloat_natDec (m : ℕ) : pyFloat (natDec m) = some (m : ℚ) := by
  have hd := natDec_all_digits m
  have hall := List.all_eq_true.mp hd
  rw [pyFloat, pyTrimL_eq_self_of_all (fun c hc => pyWs_of_digitC (hall c hc)),
    pyFloatCore_digits (natDec_ne_empty m) hd, digitsToNat_natDec]

lemma pyFloat_intDec (n : ℤ) : pyFloat (intDec n) = some (n : ℚ) := by
  by_cases hn : n < 0
  · have hdata : (intDec n).data = '-' :: (natDec n.natAbs).data := by
      simp only [intDec, hn, if_true]
      rfl
    have hd := natDec_all_digits n.natAbs
    have hall := List.all_eq_true.mp hd
    have hws : ∀ c ∈ '-' :: (natDec n.natAbs).data, pyWs c = false := by
      intro c hc
      rcases List.mem_cons.mp hc with rfl | hc2
      · decide
      · exact pyWs_of_digitC (hall c hc2)
    have hs : splitSign ('-' :: (natDec n.natAbs).data) = (true, (natDec n.natAbs).data) := by
      simp [splitSign]
    have hb := breakOnce_none (fun c => c = 'e' || c = 'E') (natDec n.natAbs).data
      (fun c hc => not_e_of_digitC (hall c hc))
    rw [pyFloat, hdata, pyTrimL_eq_self_of_all hws]
    simp only [pyFloatCore, hs, hb,
      parseMantissa_digits (natDec_ne_empty n.natAbs) hd, digitsToNat_natDec,
      Option.map_some, if_pos rfl, Option.some.injEq]
    simp only [if_true]
    rw [Int.cast_natAbs, abs_of_neg hn]
    simp
  · have hdata : intDec n = natDec n.natAbs := by simp [intDec, hn]
    rw [hdata, pyFloat_natDec]
    congr 1
    rw [Int.cast_natAbs, abs_of_nonneg (not_lt.mp hn)]

lemma intDec_ne_empty (n : ℤ) : intDec n ≠ "" := by
  apply str_ne_empty_of_data
  by_cases hn : n < 0
  · have hdata : (intDec n).data = '-' :: (natDec n.natAbs).data := by
      simp only [intDec, hn, if_true]
      rfl
    simp [hdata]
  · simp only [intDec, hn, if_false]
    exact natDec_ne_empty n.natAbs

lemma tokenToVal_intDec (n : ℤ) : tokenToVal (intDec n) = .vInt n := by
  rw [tokenToVal, if_neg (intDec_ne_empty n), pyFloat_intDec]
  simp [Rat.den_intCast, Rat.num_intCast]

lemma pyFloat_empty : pyFloat "" = none := by decide

lemma tokenToVal_ok {v : PyVal} (hv : valOKb v = true) : tokenToVal (pyValStr v) = v := by
  cases v with
  | vNone => simp [valOKb] at hv
  | vInt n => exact tokenToVal_intDec n
  | vFloat t =>
    simp only [valOKb, Bool.and_eq_true] at hv
    obtain ⟨h1, -⟩ := hv
    rcases hq : pyFloat t with - | q
    · rw [hq] at h1; simp at h1
    · rw [hq] at h1
      have hden : q.den ≠ 1 := of_decide_eq_true h1
      have hne : t ≠ "" := by
        rintro rfl
        rw [pyFloat_empty] at hq
        cases hq
      simp only [pyValStr, tokenToVal, if_neg hne, hq, if_neg hden]
  | vStr s =>
    simp only [valOKb, Bool.and_eq_true, decide_eq_true_eq, Option.isNone_iff_eq_none] at hv
    obtain ⟨⟨h1, h2⟩, -⟩ := hv
    simp only [pyValStr, tokenToVal, if_neg h1, h2]

end C1Float

section C1Match

lemma pyWs_lsq : pyWs '[' = false := by decide

lemma tryBracket_hit (pre t : List Char) (ht : '\n' ∉ t) :
    tryBracket pre ('[' :: (t ++ [']'])) = some (pre, some t) := by
  have hdw : ('[' :: (t ++ [']'])).dropWhile pyWs = '[' :: (t ++ [']']) := by
    simp [List.dropWhile_cons, pyWs_lsq]
  unfold tryBracket
  rw [hdw]
  simp [List.getLast?_concat, ht]

lemma tryBracket_space_hit (pre t : List Char) (ht : '\n' ∉ t) :
    tryBracket pre (' ' :: '[' :: (t ++ [']'])) = some (pre, some t) := by
  have h1 : pyWs ' ' = true := by decide
  have hdw : (' ' :: '[' :: (t ++ [']'])).dropWhile pyWs = '[' :: (t ++ [']']) := by
    simp [List.dropWhile_cons, h1, pyWs_lsq]
  unfold tryBracket
  rw [hdw]
  simp [List.getLast?_concat, ht]

lemma tryBracket_none_of_head {pre rest : List Char}
    (h : ∀ r2, rest.dropWhile pyWs ≠ '[' :: r2) : tryBracket pre rest = none := by
  unfold tryBracket
  split
  · next r2 heq => exact absurd heq (h r2)
  · rfl

lemma head_not_of_dropWhile {p : Char → Bool} {l : List Char} {c : Char} {cs : List Char}
    (h : l.dropWhile p = c :: cs) : p c = false := by
  induction l with
  | nil => cases h
  | cons a t ih =>
    rw [List.dropWhile_cons] at h
    by_cases ha : p a
    · rw [if_pos ha] at h
      exact ih h
    · rw [if_neg ha] at h
      cases h
      simpa using ha

lemma mem_of_dropWhile_eq_cons {p : Char → Bool} {l : List Char} {c : Char} {cs : List Char}
    (h : l.dropWhile p = c :: cs) : c ∈ l := by
  induction l with
  | nil => cases h
  | cons a t ih =>
    rw [List.dropWhile_cons] at h
    by_cases ha : p a
    · rw [if_pos ha] at h
      exact List.mem_cons_of_mem a (ih h)
    · rw [if_neg ha] at h
      cases h
      exact List.mem_cons_self ..

lemma dropWhile_ne_nil_of_last {p : Char → Bool} {l : List Char} {b : Char}
    (hb : l.getLast? = some b) (hpb : p b = false) : l.dropWhile p ≠ [] := by
  intro hnil
  have hmem : b ∈ l := List.mem_of_mem_getLast? hb
  have := (List.dropWhile_eq_nil_iff).mp hnil b hmem
  rw [hpb] at this
  cases this

lemma dropWhile_append_of_ne_nil {p : Char → Bool} {l₁ l₂ : List Char}
    (h : l₁.dropWhile p ≠ []) : (l₁ ++ l₂).dropWhile p = l₁.dropWhile p ++ l₂ := by
  induction l₁ with
  | nil => exact absurd rfl h
  | cons a t ih =>
    by_cases ha : p a
    · have h' : t.dropWhile p ≠ [] := by rwa [List.dropWhile_cons, if_pos ha] at h
      calc ((a :: t) ++ l₂).dropWhile p = (t ++ l₂).dropWhile p := by
            rw [List.cons_append, List.dropWhile_cons, if_pos ha]
        _ = t.dropWhile p ++ l₂ := ih h'
        _ = (a :: t).dropWhile p ++ l₂ := by rw [List.dropWhile_cons, if_pos ha]
    · rw [List.cons_append, List.dropWhile_cons, if_neg ha, List.dropWhile_cons, if_neg ha,
        List.cons_append]

lemma cellMatch_append (tail : List Char) :
    ∀ (d pre : List Char), (∀ x ∈ d, x ≠ '\n') → (∀ x ∈ d, x ≠ '[') →
      (∀ b, d.getLast? = some b → pyWs b = false) →
      cellMatch pre (d ++ tail) = cellMatch (pre ++ d) tail := by
  intro d
  induction d with
  | nil => intro pre _ _ _; simp
  | cons c cs ih =>
    intro pre hnl hbr hlast
    cases hgl : (c :: cs).getLast? with
    | none =>
      exfalso
      simp at hgl
    | some b =>
      have hpb : pyWs b = false := hlast b hgl
      have hDne : (c :: cs).dropWhile pyWs ≠ [] := dropWhile_ne_nil_of_last hgl hpb
      have hbrk : tryBracket pre (c :: (cs ++ tail)) = none := by
        apply tryBracket_none_of_head
        intro r2 heq
        have heq2 : ((c :: cs) ++ tail).dropWhile pyWs = '[' :: r2 := by
          rwa [List.cons_append]
        rw [dropWhile_append_of_ne_nil hDne] at heq2
        rcases hdd : (c :: cs).dropWhile pyWs with - | ⟨c', cs'⟩
        · exact hDne hdd
        · rw [hdd, List.cons_append] at heq2
          have hc' : c' = '[' := by
            have h3 := congrArg List.head? heq2
            simpa using h3
          exact hbr c' (mem_of_dropWhile_eq_cons hdd) hc'
      have hcnl : c ≠ '\n' := hnl c (by simp)
      have hstep : cellMatch pre ((c :: cs) ++ tail) = cellMatch (pre ++ [c]) (cs ++ tail) := by
        rw [List.cons_append]
        simp only [cellMatch, hbrk]
        rw [if_neg hcnl]
      rw [hstep, ih (pre ++ [c])
        (fun x hx => hnl x (by simp [hx]))
        (fun x hx => hbr x (by simp [hx]))
        (by
          intro b' hb'
          apply hlast
          cases cs with
          | nil => cases hb'
          | cons a t => rw [List.getLast?_cons_cons]; exact hb')]
      simp

lemma cellMatch_full {d t : List Char}
    (hnl : ∀ x ∈ d, x ≠ '\n') (hbr : ∀ x ∈ d, x ≠ '[')
    (hlast : ∀ b, d.getLast? = some b → pyWs b = false)
    (ht : '\n' ∉ t) :
    cellMatch [] (d ++ (' ' :: '[' :: (t ++ [']']))) = some (d, some t) := by
  rw [cellMatch_append _ d [] hnl hbr hlast, List.nil_append]
  simp only [cellMatch, tryBracket_space_hit _ _ ht]

lemma cellMatch_nodesc {t : List Char} (ht : '\n' ∉ t) :
    cellMatch [] ('[' :: (t ++ [']'])) = some ([], some t) := by
  simp only [cellMatch, tryBracket_hit _ _ ht]

end C1Match

section C1Trim

lemma dropWhile_eq_self_of_head {p : Char → Bool} {l : List Char}
    (h : ∀ c, l.head? = some c → p c = false) : l.dropWhile p = l := by
  cases l with
  | nil => rfl
  | cons a t => simp [List.dropWhile_cons, h a rfl]

lemma pyTrimL_eq_self_of_ends {l : List Char}
    (h1 : ∀ c, l.head? = some c → pyWs c = false)
    (h2 : ∀ c, l.getLast? = some c → pyWs c = false) : pyTrimL l = l := by
  unfold pyTrimL
  rw [dropWhile_eq_self_of_head h1, dropWhile_eq_self_of_head
    (fun c hc => h2 c (by rwa [List.head?_reverse] at hc)), List.reverse_reverse]

lemma pyTrimL_length_le_dropWhile (l : List Char) :
    (pyTrimL l).length ≤ (l.dropWhile pyWs).length := by
  unfold pyTrimL
  rw [List.length_reverse]
  calc (((l.dropWhile pyWs).reverse).dropWhile pyWs).length
      ≤ ((l.dropWhile pyWs).reverse).length := (List.dropWhile_sublist _).length_le
    _ = (l.dropWhile pyWs).length := List.length_reverse _

lemma pyTrimL_head_not_ws {l : List Char} (h : pyTrimL l = l) :
    ∀ c, l.head? = some c → pyWs c = false := by
  intro c hc
  cases hw : pyWs c
  · rfl
  · exfalso
    cases l with
    | nil => cases hc
    | cons a t =>
      have hac : a = c := by injection hc
      subst hac
      have hlen := pyTrimL_length_le_dropWhile (a :: t)
      rw [List.dropWhile_cons, if_pos hw, h] at hlen
      have hlen2 := (List.dropWhile_sublist (l := t) (p := pyWs)).length_le
      simp at hlen
      omega

lemma pyTrimL_last_not_ws {l : List Char} (h : pyTrimL l = l) :
    ∀ c, l.getLast? = some c → pyWs c = false := by
  intro c hc
  have hrev : ((l.dropWhile pyWs).reverse).dropWhile pyWs = l.reverse := by
    have h2 := congrArg List.reverse h
    rwa [pyTrimL, List.reverse_reverse] at h2
  cases hlr : l.reverse with
  | nil =>
    exfalso
    have : l = [] := by simpa using congrArg List.reverse hlr
    subst this
    cases hc
  | cons a t =>
    have hac : a = c := by
      have h1 : l.reverse.head? = some a := by rw [hlr]; rfl
      rw [List.head?_reverse, hc] at h1
      injection h1 with h1
      exact h1.symm
    subst hac
    rw [hlr] at hrev
    exact head_not_of_dropWhile hrev

end C1Trim

section C1Main

lemma valOK_present {v : PyVal} (hv : valOKb v = true) : valPresent v = true := by
  cases v with
  | vNone => simp [valOKb] at hv
  | vInt n => rfl
  | vFloat t => rfl
  | vStr s =>
    simp only [valOKb, Bool.and_eq_true, decide_eq_true_eq] at hv
    simp [valPresent, hv.1.1]

lemma valOK_no_newline {v : PyVal} (hv : valOKb v = true) : '\n' ∉ (pyValStr v).data := by
  cases v with
  | vNone => simp [valOKb] at hv
  | vInt n =>
    intro hmem
    by_cases hn : n < 0
    · have hdata : (intDec n).data = '-' :: (natDec n.natAbs).data := by
        simp only [intDec, hn, if_true]
        rfl
      rw [show (pyValStr (PyVal.vInt n)).data = (intDec n).data from rfl, hdata] at hmem
      rcases List.mem_cons.mp hmem with h1 | h1
      · cases h1
      · have h2 := List.all_eq_true.mp (natDec_all_digits n.natAbs) _ h1
        simp [isDigitC] at h2
    · have hdata : intDec n = natDec n.natAbs := by simp [intDec, hn]
      rw [show (pyValStr (PyVal.vInt n)).data = (intDec n).data from rfl, hdata] at hmem
      have h2 := List.all_eq_true.mp (natDec_all_digits n.natAbs) _ hmem
      simp [isDigitC] at h2
  | vFloat t =>
    simp only [valOKb, Bool.and_eq_true] at hv
    have h2 := hv.2
    simp only [Bool.not_eq_true'] at h2
    simpa using h2
  | vStr s =>
    simp only [valOKb, Bool.and_eq_true] at hv
    have h2 := hv.2
    simp only [Bool.not_eq_true'] at h2
    simpa using h2

lemma parse_format_nodesc {v : PyVal} (hv : valOKb v = true) :
    parse_desc_value (some ("[" ++ pyValStr v ++ "]")) = (none, v) := by
  have htnl := valOK_no_newline hv
  have hdata : ("[" ++ pyValStr v ++ "]").data = '[' :: ((pyValStr v).data ++ [']']) := by
    rw [String.data_append, String.data_append]
    rfl
  have hends : pyTrimL ('[' :: ((pyValStr v).data ++ [']'])) =
      '[' :: ((pyValStr v).data ++ [']']) := by
    apply pyTrimL_eq_self_of_ends
    · intro c hc
      have : c = '[' := by injection hc with h1; exact h1.symm
      subst this
      decide
    · intro c hc
      rw [show ('[' :: ((pyValStr v).data ++ [']'])) = ('[' :: (pyValStr v).data) ++ [']']
          from rfl, List.getLast?_concat] at hc
      have : c = ']' := by injection hc with h1; exact h1.symm
      subst this
      decide
  have hne : pyStrip ("[" ++ pyValStr v ++ "]") ≠ "" := by
    apply str_ne_empty_of_data
    show pyTrimL ("[" ++ pyValStr v ++ "]").data ≠ []
    rw [hdata, hends]
    simp
  simp only [parse_desc_value]
  rw [if_neg hne, hdata, hends, cellMatch_nodesc htnl]
  refine Prod.ext ?_ ?_
  · rfl
  · exact tokenToVal_ok hv

lemma parse_format_desc {s : String} {v : PyVal}
    (hs0 : s ≠ "") (hs1 : pyStrip s = s) (hs2 : '\n' ∉ s.data) (hs3 : '[' ∉ s.data)
    (hv : valOKb v = true) :
    parse_desc_value (some (s ++ " [" ++ pyValStr v ++ "]")) = (some s, v) := by
  have htnl := valOK_no_newline hv
  have hsdata : pyTrimL s.data = s.data := congrArg String.data hs1
  have hdata : (s ++ " [" ++ pyValStr v ++ "]").data =
      s.data ++ (' ' :: '[' :: ((pyValStr v).data ++ [']'])) := by
    rw [String.data_append, String.data_append, String.data_append]
    simp
  have hsne : s.data ≠ [] := fun h => hs0 (by
    have := congrArg (fun l : List Char => (⟨l⟩ : String)) h
    simpa using this)
  have hlast : ∀ b, s.data.getLast? = some b → pyWs b = false := pyTrimL_last_not_ws hsdata
  have hends : pyTrimL (s.data ++ (' ' :: '[' :: ((pyValStr v).data ++ [']']))) =
      s.data ++ (' ' :: '[' :: ((pyValStr v).data ++ [']'])) := by
    apply pyTrimL_eq_self_of_ends
    · intro c hc
      apply pyTrimL_head_not_ws hsdata
      cases hsd : s.data with
      | nil => exact absurd hsd hsne
      | cons a t =>
        rw [hsd, List.cons_append] at hc
        injection hc with h1
        subst h1
        rfl
    · intro c hc
      rw [show s.data ++ (' ' :: '[' :: ((pyValStr v).data ++ [']'])) =
          (s.data ++ (' ' :: '[' :: (pyValStr v).data)) ++ [']'] by simp,
        List.getLast?_concat] at hc
      have : c = ']' := by injection hc with h1; exact h1.symm
      subst this
      decide
  have hne : pyStrip (s ++ " [" ++ pyValStr v ++ "]") ≠ "" := by
    apply str_ne_empty_of_data
    show pyTrimL (s ++ " [" ++ pyValStr v ++ "]").data ≠ []
    rw [hdata, hends]
    simp [hsne]
  have hmatch := cellMatch_full (d := s.data) (t := (pyValStr v).data)
    (fun x hx h => hs2 (h ▸ hx)) (fun x hx h => hs3 (h ▸ hx)) hlast htnl
  simp only [parse_desc_value]
  rw [if_neg hne, hdata, hends, hmatch]
  refine Prod.ext ?_ ?_
  · show (if pyStrip ⟨s.data⟩ = "" then none else some (pyStrip ⟨s.data⟩)) = some s
    have : pyStrip (⟨s.data⟩ : String) = s := hs1
    rw [this, if_neg hs0]
  · exact tokenToVal_ok hv

end C1Main

/-! ## Claim C1: the format/parse round trip -/

/-- C1, counterexample.  The claim quantifies over every (description,
value) pair, but a description containing a newline (a perfectly legal
multi-line cell description in an RBC document) is destroyed by the
round trip: the regex's first group cannot cross `\n`, the match fails
entirely, and `parse_cell` returns `(none, 0)` — not the original
pair, and not the claimed `(none, 0)`-collapse case either, since the
value is `5` and the description is nonempty. -/
theorem c1_counterexample :
    parse_desc_value (some (format_desc_value (some "a\nb") (PyVal.vInt 5))) =
      (none, PyVal.vInt 0) ∧
    ((none : Option String), PyVal.vInt 0) ≠ ((some "a\nb" : Option String), PyVal.vInt 5) := by
  constructor
  · rfl
  · decide

/-- C1, amended: for every pair whose description is absent, empty, or
an already-stripped single-line string containing no `[`, and whose
value is one of the canonical outputs of `parse_cell`'s value channel
(an integer, a non-integral numeric token, or a nonempty non-numeric
newline-free token), `parse_cell(format_cell(description, value))`
reproduces the pair exactly, except that an empty description
collapses to absent.  In particular `(none, 0)` formats to `"[0]"` and
reparses to `(none, 0)` unchanged. -/
theorem c1_amended (d : Option String) (v : PyVal)
    (hd : descOKb d = true) (hv : valOKb v = true) :
    parse_desc_value (some (format_desc_value d v)) = (collapseDesc d, v) := by
  have hval : valPresent v = true := valOK_present hv
  cases d with
  | none =>
    have hfmt : format_desc_value none v = "[" ++ pyValStr v ++ "]" := by
      simp [format_desc_value, descTruthy, hval]
    rw [hfmt]
    exact parse_format_nodesc hv
  | some s =>
    by_cases hs0 : s = ""
    · subst hs0
      have hfmt : format_desc_value (some "") v = "[" ++ pyValStr v ++ "]" := by
        simp [format_desc_value, descTruthy, hval]
      rw [hfmt, collapseDesc]
      simp only [if_pos rfl]
      exact parse_format_nodesc hv
    · simp only [descOKb, Bool.or_eq_true, Bool.and_eq_true, decide_eq_true_eq,
        Bool.not_eq_true'] at hd
      rcases hd with hd | ⟨⟨hs1, hs2⟩, hs3⟩
      · exact absurd hd hs0
      · have hs2' : '\n' ∉ s.data := by simpa using hs2
        have hs3' : '[' ∉ s.data := by simpa using hs3
        have hfmt : format_desc_value (some s) v = s ++ " [" ++ pyValStr v ++ "]" := by
          simp [format_desc_value, descTruthy, hs0, hval]
        rw [hfmt, collapseDesc]
        simp only [if_neg hs0]
        exact parse_format_desc hs0 hs1 hs2' hs3' hv

/-- C1, witness: a concrete instance of the amended round trip. -/
theorem c1_witness :
    descOKb (some "Adequate analysis") = true ∧ valOKb (PyVal.vInt 4) = true ∧
    parse_desc_value (some (format_desc_value (some "Adequate analysis") (PyVal.vInt 4))) =
      (some "Adequate analysis", PyVal.vInt 4) :=
  ⟨by decide, by decide, by
    have h := c1_amended (some "Adequate analysis") (PyVal.vInt 4) (by decide) (by decide)
    simpa [collapseDesc] using h⟩

section C7

lemma truncWarning_head {k : String} {c : Char} {t : List Char} (hk : k.data = c :: t)
    (a b : String) : (truncWarning k a b).data.head? = some c := by
  rw [truncWarning]
  simp only [String.data_append]
  rw [hk]
  rfl

lemma scale_warning_ne_rubric (a b c d : String) :
    truncWarning "Scale" a b ≠ truncWarning "Rubric" c d := by
  intro h
  have h1 := congrArg (fun s : String => s.data.head?) h
  dsimp only at h1
  rw [truncWarning_head (k := "Scale") rfl a b, truncWarning_head (k := "Rubric") rfl c d] at h1
  cases h1

lemma criterion_warning_ne_rubric (a b c d : String) :
    truncWarning "Criterion" a b ≠ truncWarning "Rubric" c d := by
  intro h
  have h1 := congrArg (fun s : String => s.data.head?) h
  dsimp only at h1
  rw [truncWarning_head (k := "Criterion") rfl a b, truncWarning_head (k := "Rubric") rfl c d] at h1
  cases h1

lemma truncate_long {s : String} {n : ℕ} (h : n < s.length) :
    truncate s n = ⟨s.data.take n⟩ := by
  rw [truncate, if_pos h]

lemma truncate_long_ne {s : String} {n : ℕ} (h : n < s.length) :
    truncate s n ≠ s := by
  intro he
  have hl := congrArg String.length he
  have h1 : (truncate s n).length = n := by
    rw [truncate_long h]
    show (s.data.take n).length = n
    rw [List.length_take]
    exact min_eq_left (le_of_lt h)
  omega

lemma count_eq_zero_of_forall_ne {l : List String} {a : String}
    (h : ∀ x ∈ l, x ≠ a) : l.count a = 0 := by
  rw [List.count_eq_zero]
  intro hmem
  exact h a hmem rfl

end C7

/-- C7: a rubric name longer than 30 characters — whether an explicit
override or derived from the file name — is truncated to its
30-character prefix in the written rubric record, exactly one warning
citing both the original and truncated strings verbatim is recorded,
and the conversion still fully produces the document (one criterion
record per grid row). -/
theorem c7_truncation_warning :
    (∀ (stem o : String) (g : Grid), o ≠ "" → 30 < o.length →
      (excel_to_rbc stem (some o) g).doc.rubric.map (fun r => r.name) =
        [(⟨o.data.take 30⟩ : String)] ∧
      (excel_to_rbc stem (some o) g).warnings.count
        (truncWarning "Rubric" o ⟨o.data.take 30⟩) = 1 ∧
      (excel_to_rbc stem (some o) g).doc.criteria.length = g.rows.length) ∧
    (∀ (stem : String) (g : Grid), 30 < (underscoresToSpaces stem).length →
      (excel_to_rbc stem none g).doc.rubric.map (fun r => r.name) =
        [(⟨(underscoresToSpaces stem).data.take 30⟩ : String)] ∧
      (excel_to_rbc stem none g).warnings.count
        (truncWarning "Rubric" (underscoresToSpaces stem)
          ⟨(underscoresToSpaces stem).data.take 30⟩) = 1 ∧
      (excel_to_rbc stem none g).doc.criteria.length = g.rows.length) := by
  constructor
  · intro stem o g ho hlen
    have hot : descTruthy (some o) = true := by simp [descTruthy, ho]
    have htrne : truncate o 30 ≠ o := truncate_long_ne hlen
    have htr : truncate o 30 = ⟨o.data.take 30⟩ := truncate_long hlen
    refine ⟨?_, ?_, ?_⟩
    · simp [excel_to_rbc, hot, htr]
    · simp only [excel_to_rbc, hot, Option.getD_some, if_true, List.count_append]
      rw [if_pos (by simp [htrne])]
      have h1 : ([truncWarning "Rubric" o (truncate o 30)]).count
          (truncWarning "Rubric" o ⟨o.data.take 30⟩) = 1 := by
        rw [htr, List.count_singleton]
        simp
      have h2 := count_eq_zero_of_forall_ne (a := truncWarning "Rubric" o ⟨o.data.take 30⟩)
        (l := (((g.columns.filter (fun c => strEndsWith c "(desc [value])")).map
            (fun c => strDropRight c 15)).filter (fun n0 => truncate n0 25 ≠ n0)).map
            (fun n0 => truncWarning "Scale" n0 (truncate n0 25)))
        (by
          intro x hx
          rcases List.mem_map.mp hx with ⟨a, -, rfl⟩
          exact scale_warning_ne_rubric a _ o _)
      have h3 := count_eq_zero_of_forall_ne (a := truncWarning "Rubric" o ⟨o.data.take 30⟩)
        (l := (g.rows.map (fun row =>
            (parse_criterion_cell (rowGet g row critColumn)).1)).filterMap
            (fun n0 => if truncate n0 13 ≠ n0
              then some (truncWarning "Criterion" n0 (truncate n0 13)) else none))
        (by
          intro x hx
          rcases List.mem_filterMap.mp hx with ⟨a, -, hfa⟩
          by_cases hc : truncate a 13 ≠ a
          · rw [if_pos hc] at hfa
            injection hfa with hfa
            rw [← hfa]
            exact criterion_warning_ne_rubric a _ o _
          · rw [if_neg hc] at hfa
            cases hfa)
      rw [h1, h2, h3]
    · simp [excel_to_rbc]
  · intro stem g hlen
    have hot : descTruthy (none : Option String) = false := rfl
    have htrne : truncate (underscoresToSpaces stem) 30 ≠ underscoresToSpaces stem :=
      truncate_long_ne hlen
    have htr : truncate (underscoresToSpaces stem) 30 =
        ⟨(underscoresToSpaces stem).data.take 30⟩ := truncate_long hlen
    refine ⟨?_, ?_, ?_⟩
    · simp [excel_to_rbc, hot, htr]
    · simp only [excel_to_rbc, hot, Bool.false_and, Bool.false_eq_true, if_false,
        Bool.not_false, Bool.true_and, List.count_append, if_neg]
      rw [if_pos (by simp [htrne])]
      have h1 : ([truncWarning "Rubric" (underscoresToSpaces stem)
          (truncate (underscoresToSpaces stem) 30)]).count
          (truncWarning "Rubric" (underscoresToSpaces stem)
            ⟨(underscoresToSpaces stem).data.take 30⟩) = 1 := by
        rw [htr, List.count_singleton]
        simp
      have h2 := count_eq_zero_of_forall_ne
        (a := truncWarning "Rubric" (underscoresToSpaces stem)
          ⟨(underscoresToSpaces stem).data.take 30⟩)
        (l := (((g.columns.filter (fun c => strEndsWith c "(desc [value])")).map
            (fun c => strDropRight c 15)).filter (fun n0 => truncate n0 25 ≠ n0)).map
            (fun n0 => truncWarning "Scale" n0 (truncate n0 25)))
        (by
          intro x hx
          rcases List.mem_map.mp hx with ⟨a, -, rfl⟩
          exact scale_warning_ne_rubric a _ _ _)
      have h3 := count_eq_zero_of_forall_ne
        (a := truncWarning "Rubric" (underscoresToSpaces stem)
          ⟨(underscoresToSpaces stem).data.take 30⟩)
        (l := (g.rows.map (fun row =>
            (parse_criterion_cell (rowGet g row critColumn)).1)).filterMap
            (fun n0 => if truncate n0 13 ≠ n0
              then some (truncWarning "Criterion" n0 (truncate n0 13)) else none))
        (by
          intro x hx
          rcases List.mem_filterMap.mp hx with ⟨a, -, hfa⟩
          by_cases hc : truncate a 13 ≠ a
          · rw [if_pos hc] at hfa
            injection hfa with hfa
            rw [← hfa]
            exact criterion_warning_ne_rubric a _ _ _
          · rw [if_neg hc] at hfa
            cases hfa)
      rw [h1, h2, h3]
    · simp [excel_to_rbc]

section C10

lemma dedupGo_sound (l : List String) :
    ∀ seen, (dedupGo seen l).Nodup ∧ ∀ x ∈ dedupGo seen l, x ∉ seen := by
  induction l with
  | nil => intro seen; exact ⟨List.nodup_nil, by simp [dedupGo]⟩
  | cons a t ih =>
    intro seen
    by_cases ha : seen.contains a = true
    · rw [show dedupGo seen (a :: t) = dedupGo seen t by rw [dedupGo, if_pos ha]]
      exact ih seen
    · rw [show dedupGo seen (a :: t) = a :: dedupGo (seen ++ [a]) t by rw [dedupGo, if_neg ha]]
      obtain ⟨hn, hs⟩ := ih (seen ++ [a])
      refine ⟨List.nodup_cons.mpr ⟨?_, hn⟩, ?_⟩
      · intro hmem
        exact hs a hmem (by simp)
      · intro x hx
        rcases List.mem_cons.mp hx with rfl | hx2
        · simpa using ha
        · intro hxs
          exact hs x hx2 (by simp [hxs])

lemma dedupKeepFirst_nodup (l : List String) : (dedupKeepFirst l).Nodup :=
  (dedupGo_sound l []).1

lemma indexOf?_none {l : List String} {a : String} (h : a ∉ l) : l.indexOf? a = none := by
  rw [List.indexOf?_eq_none_iff]
  intro x hx hxa
  exact h ((eq_of_beq hxa) ▸ hx)

lemma nodup_indexOf_of_getElem? {l : List String} {i : ℕ} {a : String}
    (hg : l[i]? = some a) (h : l.Nodup) : l.indexOf a = i := by
  obtain ⟨hi, hget⟩ := List.getElem?_eq_some_iff.mp hg
  rw [← hget]
  exact List.indexOf_getElem h i hi

/-- C10: when the grid has a scale column whose name exceeds 25
characters, `excel_to_rbc` looks rows up under the truncated scale
name, which (provided the truncated header is not itself another
column of the grid) misses, so every criterion-scale cell emitted for
that scale carries description `none` and value `0`, regardless of the
grid's actual contents. -/
theorem c10_long_scale_name (g : Grid) (stem : String) (ov : Option String) (nm : String)
    (hmem : (nm ++ scaleColSfx) ∈ g.columns) (hlen : 25 < nm.length)
    (hnot : (truncate nm 25 ++ scaleColSfx) ∉ g.columns) :
    ∀ s ∈ (excel_to_rbc stem ov g).doc.scales, s.name = truncate nm 25 →
      ∀ cs ∈ (excel_to_rbc stem ov g).doc.criterionScales,
        cs.scale_value = s.id → cs.description = none ∧ cs.value = PyVal.vInt 0 := by
  intro s hs hname cs hcs hsv
  simp only [excel_to_rbc] at hs hcs
  rcases List.mem_map.mp hs with ⟨⟨i, nm'⟩, hq, rfl⟩
  rcases List.exists_of_mem_flatMap hcs with ⟨p, hp, hcs2⟩
  rcases List.mem_map.mp hcs2 with ⟨⟨j, nm2⟩, hq2, rfl⟩
  simp only at hsv hname ⊢
  -- the deduplicated scale-name list
  have hnodup : (dedupKeepFirst
      (((g.columns.filter (fun c => strEndsWith c "(desc [value])")).map
        (fun c => strDropRight c 15)).map (fun n0 => truncate n0 25))).Nodup :=
    dedupKeepFirst_nodup _
  have hg2 := List.mk_mem_enum_iff_getElem?.mp hq2
  have hg1 := List.mk_mem_enum_iff_getElem?.mp hq
  have hidx : (dedupKeepFirst
      (((g.columns.filter (fun c => strEndsWith c "(desc [value])")).map
        (fun c => strDropRight c 15)).map (fun n0 => truncate n0 25))).indexOf nm2 = j :=
    nodup_indexOf_of_getElem? hg2 hnodup
  have hij : j = i := by
    simp only [scaleIdOf, hidx] at hsv
    omega
  have hnm : nm2 = truncate nm 25 := by
    subst hij
    rw [hg1] at hg2
    injection hg2 with h2
    rw [← h2]
    exact hname
  have hrg : rowGet g p.2 (nm2 ++ scaleColSfx) = none := by
    rw [rowGet, hnm, indexOf?_none hnot]
    rfl
  rw [hrg]
  exact ⟨rfl, rfl⟩

end C10

/-- C10, witness: a 26-character scale name; the grid's real cell
content `"real content [7]"` is ignored and the emitted cell is
`(none, 0)`. -/
theorem c10_witness :
    (("ABCDEFGHIJKLMNOPQRSTUVWXYZ" ++ scaleColSfx) ∈
        (⟨[critColumn, "ABCDEFGHIJKLMNOPQRSTUVWXYZ (desc [value])"],
          [["X", "real content [7]"]]⟩ : Grid).columns ∧
     25 < ("ABCDEFGHIJKLMNOPQRSTUVWXYZ" : String).length ∧
     (truncate "ABCDEFGHIJKLMNOPQRSTUVWXYZ" 25 ++ scaleColSfx) ∉
        (⟨[critColumn, "ABCDEFGHIJKLMNOPQRSTUVWXYZ (desc [value])"],
          [["X", "real content [7]"]]⟩ : Grid).columns) ∧
    (({ criterion := 2000000, scale_value := 1000000, description := none,
        value := PyVal.vInt 0, id := 3000000 } : RubricCriterionScale).description = none ∧
     ({ criterion := 2000000, scale_value := 1000000, description := none,
        value := PyVal.vInt 0, id := 3000000 } : RubricCriterionScale).value = PyVal.vInt 0) :=
  ⟨⟨by decide, by decide, by decide⟩, by
    have h := c10_long_scale_name
      (⟨[critColumn, "ABCDEFGHIJKLMNOPQRSTUVWXYZ (desc [value])"],
        [["X", "real content [7]"]]⟩ : Grid) "f" none "ABCDEFGHIJKLMNOPQRSTUVWXYZ"
      (by decide) (by decide) (by decide)
      { id := 1000000, num := 1, position := 1, value := 0,
        name := "ABCDEFGHIJKLMNOPQRSTUVWXY", rubric := 1 }
      (by decide) (by decide)
      { criterion := 2000000, scale_value := 1000000, description := none,
        value := PyVal.vInt 0, id := 3000000 }
      (by decide) (by decide)
    exact h⟩

section C2Lemmas

lemma upsert_fresh {α : Type} (acc : List (ℤ × α)) (k : ℤ) (v : α)
    (h : ∀ p ∈ acc, p.1 ≠ k) : upsert acc k v = acc ++ [(k, v)] := by
  rw [upsert, if_neg]
  simp only [List.any_eq_true, not_exists, not_and]
  intro p hp
  simp [h p hp]

lemma foldl_upsert_eq {α : Type} (f : α → ℤ) (val : α → α) :
    ∀ (l : List α) (acc : List (ℤ × α)), (l.map f).Nodup →
      (∀ x ∈ l, ∀ p ∈ acc, p.1 ≠ f x) →
      l.foldl (fun acc c => upsert acc (f c) (val c)) acc =
        acc ++ l.map (fun c => (f c, val c)) := by
  intro l
  induction l with
  | nil => intro acc _ _; simp
  | cons a t ih =>
    intro acc hnd hdis
    have hstep : upsert acc (f a) (val a) = acc ++ [(f a, val a)] :=
      upsert_fresh acc (f a) (val a) (fun p hp => hdis a (by simp) p hp)
    rw [List.foldl_cons, hstep, ih (acc ++ [(f a, val a)])
      (by simpa using (List.nodup_cons.mp (by simpa using hnd)).2)
      (by
        intro x hx p hp
        rcases List.mem_append.mp hp with hp1 | hp1
        · exact hdis x (by simp [hx]) p hp1
        · have : p = (f a, val a) := by simpa using hp1
          subst this
          have hnotin : f a ∉ t.map f := (List.nodup_cons.mp (by simpa using hnd)).1
          intro he
          exact hnotin ((show f a = f x from he) ▸ List.mem_map_of_mem f hx))]
    simp

lemma insertByPos_length (x : RubricScale) (l : List RubricScale) :
    (insertByPos x l).length = l.length + 1 := by
  induction l with
  | nil => rfl
  | cons y ys ih =>
    rw [insertByPos]
    by_cases h : y.position ≤ x.position
    · rw [if_pos h]
      simp [ih]
    · rw [if_neg h]
      simp

lemma insertByPos_perm (x : RubricScale) (l : List RubricScale) :
    List.Perm (insertByPos x l) (x :: l) := by
  induction l with
  | nil => rfl
  | cons y ys ih =>
    rw [insertByPos]
    by_cases h : y.position ≤ x.position
    · rw [if_pos h]
      exact (ih.cons y).trans (List.Perm.swap x y ys)
    · rw [if_neg h]

lemma sortByPos_perm (l : List RubricScale) : List.Perm (sortByPos l) l := by
  suffices h : ∀ (l acc : List RubricScale),
      List.Perm (l.foldl (fun acc x => insertByPos x acc) acc) (acc ++ l) by
    simpa using h l []
  intro l
  induction l with
  | nil => intro acc; simp
  | cons a t ih =>
    intro acc
    refine List.Perm.trans (ih (insertByPos a acc)) ?_
    refine List.Perm.trans ((insertByPos_perm a acc).append_right t) ?_
    rw [List.cons_append]
    exact (List.perm_middle).symm

lemma dedupGo_eq_self (l : List String) :
    ∀ seen, l.Nodup → (∀ x ∈ l, seen.contains x = false) → dedupGo seen l = l := by
  induction l with
  | nil => intro seen _ _; rfl
  | cons a t ih =>
    intro seen hnd hns
    have hca := hns a (by simp)
    rw [dedupGo, if_neg (by rw [hca]; simp)]
    congr 1
    apply ih (seen ++ [a]) (List.nodup_cons.mp hnd).2
    intro x hx
    have hxa : x ≠ a := by
      intro he
      exact (List.nodup_cons.mp hnd).1 (he ▸ hx)
    have hxs := hns x (by simp [hx])
    simp only [Bool.eq_false_iff] at hxs ⊢
    intro hcon
    apply hxs
    simp only [List.contains_eq_any_beq, List.any_eq_true] at hcon ⊢
    rcases hcon with ⟨y, hy, hxy⟩
    rcases List.mem_append.mp hy with hy1 | hy1
    · exact ⟨y, hy1, hxy⟩
    · exfalso
      have : y = a := by simpa using hy1
      subst this
      exact hxa (eq_of_beq hxy)

lemma dedupKeepFirst_eq_self {l : List String} (h : l.Nodup) : dedupKeepFirst l = l :=
  dedupGo_eq_self l [] h (fun x _ => rfl)

lemma strEndsWith_scaleCol (n : String) :
    strEndsWith (n ++ scaleColSfx) "(desc [value])" = true := by
  rw [strEndsWith, List.isSuffixOf_iff_suffix]
  exact ⟨n.data ++ [' '], by
    rw [String.data_append]
    simp [scaleColSfx]⟩

lemma strDropRight_scaleCol (n : String) : strDropRight (n ++ scaleColSfx) 15 = n := by
  rw [strDropRight, String.data_append]
  have hlen : (scaleColSfx.data).length = 15 := rfl
  rw [List.length_append, hlen]
  rw [show n.data.length + 15 - 15 = n.data.length by omega]
  rw [List.take_left]

lemma length_flatMap_const {α β : Type} (l : List α) (f : α → List β) (S : ℕ)
    (h : ∀ a ∈ l, (f a).length = S) : (l.flatMap f).length = l.length * S := by
  induction l with
  | nil => simp
  | cons a t ih =>
    rw [List.flatMap_cons, List.length_append, h a (by simp),
      ih (fun x hx => h x (by simp [hx]))]
    simp [Nat.succ_mul]
    omega

end C2Lemmas

/-- C2, amended: the RBC → Excel → RBC round trip preserves the number
of criteria and scales, emits exactly `C*S` criterion-scale cells, and
gives every criterion exactly `S` cell references — provided the
document's criterion ids are distinct, its scale ids are distinct, and
its scale names remain distinct after truncation to 25 characters
(duplicate ids collapse in the id-keyed dictionaries, and duplicate
truncated names collapse under the deliberate scale-name
deduplication). -/
theorem c2_amended (d : RbcDoc) (stem : String) (ov : Option String)
    (h1 : (d.criteria.map (fun c => c.id)).Nodup)
    (h2 : (d.scales.map (fun s => s.id)).Nodup)
    (h3 : (d.scales.map (fun s => truncate s.name 25)).Nodup) :
    (excel_to_rbc stem ov (rbc_to_excel d)).doc.criteria.length = d.criteria.length ∧
    (excel_to_rbc stem ov (rbc_to_excel d)).doc.scales.length = d.scales.length ∧
    (excel_to_rbc stem ov (rbc_to_excel d)).doc.criterionScales.length =
      d.criteria.length * d.scales.length ∧
    ∀ c ∈ (excel_to_rbc stem ov (rbc_to_excel d)).doc.criteria,
      c.criterion_scales.length = d.scales.length := by
  have hcrit : d.criteria.foldl (fun acc c => upsert acc c.id c) [] =
      d.criteria.map (fun c => (c.id, c)) := by
    have h := foldl_upsert_eq (fun c : RubricCriterion => c.id) (fun c => c)
      d.criteria [] h1 (by simp)
    simpa using h
  have hscale : d.scales.foldl (fun acc s => upsert acc s.id s) [] =
      d.scales.map (fun s => (s.id, s)) := by
    have h := foldl_upsert_eq (fun s : RubricScale => s.id) (fun s => s)
      d.scales [] h2 (by simp)
    simpa using h
  have hcols : (rbc_to_excel d).columns =
      critColumn :: (sortByPos d.scales).map (fun s => s.name ++ scaleColSfx) := by
    have hid : ∀ l : List RubricScale,
        List.map ((fun x : ℤ × RubricScale => x.2) ∘ fun s => (s.id, s)) l = l := by
      intro l
      induction l with
      | nil => rfl
      | cons a t ih => simp only [List.map_cons, ih, Function.comp_apply]
    simp only [rbc_to_excel, hscale, List.map_map, hid]
  have hrows_len : (rbc_to_excel d).rows.length = d.criteria.length := by
    simp only [rbc_to_excel, hcrit]
    simp
  have hraw : ((rbc_to_excel d).columns.filter
        (fun c => strEndsWith c "(desc [value])")).map (fun c => strDropRight c 15) =
      (sortByPos d.scales).map (fun s => s.name) := by
    rw [hcols, List.filter_cons_of_neg (by decide)]
    rw [List.filter_eq_self.mpr (by
      intro b hb
      rcases List.mem_map.mp hb with ⟨s, -, rfl⟩
      exact strEndsWith_scaleCol s.name)]
    rw [List.map_map]
    apply List.map_congr_left
    intro s _
    exact strDropRight_scaleCol s.name
  have hnodup2 : ((sortByPos d.scales).map (fun s => truncate s.name 25)).Nodup :=
    (((sortByPos_perm d.scales).map (fun s => truncate s.name 25)).nodup_iff).mpr h3
  have hnames : dedupKeepFirst ((((rbc_to_excel d).columns.filter
        (fun c => strEndsWith c "(desc [value])")).map (fun c => strDropRight c 15)).map
        (fun n0 => truncate n0 25)) =
      (sortByPos d.scales).map (fun s => truncate s.name 25) := by
    rw [hraw, List.map_map]
    exact dedupKeepFirst_eq_self hnodup2
  have hS : (dedupKeepFirst ((((rbc_to_excel d).columns.filter
        (fun c => strEndsWith c "(desc [value])")).map (fun c => strDropRight c 15)).map
        (fun n0 => truncate n0 25))).length = d.scales.length := by
    rw [hnames, List.length_map]
    exact (sortByPos_perm d.scales).length_eq
  refine ⟨?_, ?_, ?_, ?_⟩
  · simp only [excel_to_rbc]
    simp [hrows_len]
  · simp only [excel_to_rbc]
    simpa using hS
  · simp only [excel_to_rbc]
    rw [length_flatMap_const _ _ (dedupKeepFirst ((((rbc_to_excel d).columns.filter
        (fun c => strEndsWith c "(desc [value])")).map (fun c => strDropRight c 15)).map
        (fun n0 => truncate n0 25))).length (by
      intro a _
      simp)]
    rw [hS]
    simp [hrows_len]
  · intro c hc
    simp only [excel_to_rbc] at hc
    rcases List.mem_map.mp hc with ⟨p, -, rfl⟩
    simpa using hS

/-- C2, counterexample.  The claim is unconditional over RBC
documents, but on a document whose two scales share one display name,
the round trip collapses them into a single scale (`dict.fromkeys`
deduplication), so the scale count drops from 2 to 1. -/
theorem c2_counterexample :
    dupScaleDoc.criteria.length = 1 ∧ dupScaleDoc.scales.length = 2 ∧
    (excel_to_rbc "f" none (rbc_to_excel dupScaleDoc)).doc.scales.length = 1 := by
  decide

/-- C2, witness: the amended round-trip invariants on a concrete
document with two distinctly named scales. -/
theorem c2_witness :
    ((okScaleDoc.criteria.map (fun c => c.id)).Nodup ∧
     (okScaleDoc.scales.map (fun s => s.id)).Nodup ∧
     (okScaleDoc.scales.map (fun s => truncate s.name 25)).Nodup) ∧
    ((excel_to_rbc "f" none (rbc_to_excel okScaleDoc)).doc.criteria.length = 1 ∧
     (excel_to_rbc "f" none (rbc_to_excel okScaleDoc)).doc.scales.length = 2 ∧
     (excel_to_rbc "f" none (rbc_to_excel okScaleDoc)).doc.criterionScales.length = 2) := by
  refine ⟨⟨by decide, by decide, by decide⟩, ?_⟩
  have h := c2_amended okScaleDoc "f" none (by decide) (by decide) (by decide)
  exact ⟨h.1, h.2.1, h.2.2.1⟩

section C6C9

lemma cfLevels_positions (g : Grid) (row : List String) :
    ∀ (cols : List String) (pos : ℕ),
      (cfLevels g row cols pos).map (fun l => l.position) =
        List.range' pos (cfLevels g row cols pos).length := by
  intro cols
  induction cols with
  | nil => intro pos; rfl
  | cons col cols ih =>
    intro pos
    rw [cfLevels]
    split
    · exact ih pos
    · next cell heq =>
      by_cases hb : pyStrip cell = ""
      · rw [if_pos hb]
        exact ih pos
      · rw [if_neg hb]
        simp only [List.map_cons, List.length_cons, ih (pos + 1)]
        rw [List.range'_succ]

/-- C6, counterexample.  The emitted criterion `position` fields are
1-based (`idx + 1`), not 0-based as the claim states: a one-row grid
yields criterion position `1`, not `0`.  (The level positions are
0-based, as the amended theorem shows.) -/
theorem c6_counterexample :
    ((excel_to_ims "f" none ⟨[critColumn, "Level 1 (desc [value])"], [["X", "[1]"]]⟩
        true).cfCriteria.map (fun c => c.position)) = [1] ∧
    ([1] : List ℤ) ≠ [0] := by
  decide

/-- C6, amended: in every CFRubric document emitted by
`excel_to_ims`, each criterion's levels carry 0-based positions `0, 1,
2, …` contiguous over its non-empty cells in column order (not the
original column index), while each criterion record's own `position`
field is 1-based: row index plus one. -/
theorem c6_amended (stem : String) (ov : Option String) (g : Grid) :
    (excel_to_ims stem ov g true).cfCriteria.map (fun c => c.position) =
      (List.range g.rows.length).map (fun i : ℕ => (i : ℤ) + 1) ∧
    ∀ c ∈ (excel_to_ims stem ov g true).cfCriteria,
      c.CFRubricCriterionLevels.map (fun l => l.position) =
        List.range c.CFRubricCriterionLevels.length := by
  have hpos : ∀ (f : ℕ × List String → CfCriterion),
      (∀ p, (f p).position = (p.1 : ℤ) + 1) → ∀ l : List (ℕ × List String),
      (l.map f).map (fun c => c.position) = l.map (fun p => (p.1 : ℤ) + 1) := by
    intro f hf l
    rw [List.map_map]
    exact List.map_congr_left (fun p _ => hf p)
  constructor
  · simp only [excel_to_ims, if_true, ImsDoc.cfCriteria]
    rw [hpos _ (fun p => rfl)]
    rw [show g.rows.enum.map (fun p => (p.1 : ℤ) + 1) =
        (g.rows.enum.map Prod.fst).map (fun i : ℕ => (i : ℤ) + 1) by
      rw [List.map_map]
      rfl]
    rw [List.enum_map_fst]
  · intro c hc
    simp only [excel_to_ims, if_true, ImsDoc.cfCriteria] at hc
    rcases List.mem_map.mp hc with ⟨p, -, rfl⟩
    simp only
    rw [cfLevels_positions, List.range_eq_range']

end C6C9

/-- C6, witness: the amended position layout on a concrete grid with a
skipped middle cell — criterion position `1`, level positions `[0, 1]`. -/
theorem c6_witness :
    ((excel_to_ims "f" none ⟨[critColumn, "Level 1 (desc [value])",
        "Level 2 (desc [value])", "Level 3 (desc [value])"],
        [["Name\nDesc", "a [1]", "", "c [3]"]]⟩ true).cfCriteria.map
      (fun c => c.position) = [1]) ∧
    (({ position := 1, Description := "Name",
        CFRubricCriterionLevels := [{ score := "1", position := 0, Description := "a" },
                                    { score := "3", position := 1, Description := "c" }] } :
        CfCriterion).CFRubricCriterionLevels.map (fun l => l.position) = [0, 1]) := by
  constructor
  · have h := (c6_amended "f" none ⟨[critColumn, "Level 1 (desc [value])",
        "Level 2 (desc [value])", "Level 3 (desc [value])"],
        [["Name\nDesc", "a [1]", "", "c [3]"]]⟩).1
    rw [h]
    decide
  · have h := (c6_amended "f" none ⟨[critColumn, "Level 1 (desc [value])",
        "Level 2 (desc [value])", "Level 3 (desc [value])"],
        [["Name\nDesc", "a [1]", "", "c [3]"]]⟩).2
      { position := 1, Description := "Name",
        CFRubricCriterionLevels := [{ score := "1", position := 0, Description := "a" },
                                    { score := "3", position := 1, Description := "c" }] }
      (by
        rw [show (excel_to_ims "f" none (⟨[critColumn, "Level 1 (desc [value])",
            "Level 2 (desc [value])", "Level 3 (desc [value])"],
            [["Name\nDesc", "a [1]", "", "c [3]"]]⟩ : Grid) true).cfCriteria =
          [{ position := 1, Description := "Name",
             CFRubricCriterionLevels := [{ score := "1", position := 0, Description := "a" },
                                         { score := "3", position := 1, Description := "c" }] }]
          from rfl]
        exact List.mem_singleton.mpr rfl)
    rw [h]
    decide

/-- C9: with `use_cf_format` (the default), the emitted criterion
record's `Description` field is the parsed first-line name alone — the
free-text criterion description parsed from the later lines of the
label cell is dropped from the CFRubric output. -/
theorem c9_cf_drops_description (stem : String) (ov : Option String) (g : Grid)
    (idx : ℕ) (row : List String) (hrow : g.rows[idx]? = some row)
    (hdesc : (parse_criterion_cell (rowGet g row critColumn)).2 ≠ "") :
    ∃ c, (excel_to_ims stem ov g true).cfCriteria[idx]? = some c ∧
      c.Description = (parse_criterion_cell (rowGet g row critColumn)).1 := by
  simp only [excel_to_ims, if_true, ImsDoc.cfCriteria]
  rw [List.getElem?_map, List.getElem?_enum, hrow]
  exact ⟨_, rfl, rfl⟩

/-- C9, witness: a label cell with name and description lines. -/
theorem c9_witness :
    ((⟨[critColumn], [["Analysis\nDeep dive"]]⟩ : Grid).rows[0]? =
      some ["Analysis\nDeep dive"] ∧
     (parse_criterion_cell (rowGet ⟨[critColumn], [["Analysis\nDeep dive"]]⟩
       ["Analysis\nDeep dive"] critColumn)).2 ≠ "") ∧
    (∃ c, (excel_to_ims "f" none (⟨[critColumn], [["Analysis\nDeep dive"]]⟩ : Grid)
        true).cfCriteria[0]? = some c ∧
      c.Description = (parse_criterion_cell (rowGet ⟨[critColumn], [["Analysis\nDeep dive"]]⟩
        ["Analysis\nDeep dive"] critColumn)).1) :=
  ⟨⟨by decide, by decide⟩,
   c9_cf_drops_description "f" none ⟨[critColumn], [["Analysis\nDeep dive"]]⟩ 0
     ["Analysis\nDeep dive"] (by decide) (by decide)⟩

/-! ## Claim C8: the missing-criteria input error -/

/-- C8, counterexample.  A document carrying an *empty*
`CFRubricCriterion` collection next to a non-empty legacy `criteria`
collection raises the input error: the CF key takes precedence and its
empty value is selected, although the document does have a criteria
collection and does have the `CFRubricCriterion` key — contradicting
the claim's "no CFRubricCriterion key and an empty or absent criteria
collection" condition on both readings. -/
theorem c8_counterexample :
    ims_to_excel (Json.obj [("CFRubricCriterion", Json.arr []),
        ("criteria", Json.arr [Json.obj [("title", Json.str "C"),
          ("levels", Json.arr [])]])]) =
      .error "No criteria found in IMS format file" ∧
    (Json.obj [("CFRubricCriterion", Json.arr []),
        ("criteria", Json.arr [Json.obj [("title", Json.str "C"),
          ("levels", Json.arr [])]])]).hasKey "CFRubricCriterion" = true ∧
    ((Json.obj [("CFRubricCriterion", Json.arr []),
        ("criteria", Json.arr [Json.obj [("title", Json.str "C"),
          ("levels", Json.arr [])]])]).getD "criteria" Json.null).truthy = true := by
  exact ⟨rfl, rfl, rfl⟩

/-- C8, amended: on well-typed input, `ims_to_excel` raises the input
error `"No criteria found in IMS format file"` exactly when the
*selected* criteria collection — the `CFRubricCriterion` value when
that key is present, else the `criteria` value — is empty, null or
absent (falsy); otherwise it returns a grid.  The error is raised
before any output exists: the two outcomes are exclusive by the
result type. -/
theorem c8_amended (d : Json) (hwf : imsWF d = true) :
    (ims_to_excel d = .error "No criteria found in IMS format file" ↔
      (imsSelected d).truthy = false) ∧
    ((imsSelected d).truthy = true → ∃ g, ims_to_excel d = .ok g) := by
  clear hwf
  constructor
  · constructor
    · intro he
      cases ht : (imsSelected d).truthy
      · rfl
      · rw [ims_to_excel, ht] at he
        simp at he
    · intro ht
      rw [ims_to_excel, ht]
      rfl
  · intro ht
    rw [ims_to_excel, ht]
    exact ⟨_, rfl⟩

/-- C8, witness: an empty legacy criteria collection errors; a
one-criterion collection converts. -/
theorem c8_witness :
    (imsWF (Json.obj [("criteria", Json.arr [])]) = true ∧
     ims_to_excel (Json.obj [("criteria", Json.arr [])]) =
       .error "No criteria found in IMS format file") ∧
    (imsWF (Json.obj [("criteria", Json.arr [Json.obj [("title", Json.str "C")]])]) = true ∧
     ∃ g, ims_to_excel (Json.obj [("criteria",
       Json.arr [Json.obj [("title", Json.str "C")]])]) = .ok g) :=
  ⟨⟨rfl, (c8_amended (Json.obj [("criteria", Json.arr [])]) rfl).1.mpr rfl⟩,
   ⟨rfl, (c8_amended (Json.obj [("criteria",
     Json.arr [Json.obj [("title", Json.str "C")]])]) rfl).2 rfl⟩⟩

/-! ## Claim C5: the IMS-to-grid layout -/

section C5

lemma foldl_max_init (l : List Json) :
    ∀ acc : ℕ, acc ≤ l.foldl (fun m c => max m (levelsOfCriterion c).length) acc := by
  induction l with
  | nil => intro acc; exact le_rfl
  | cons a t ih =>
    intro acc
    calc acc ≤ max acc (levelsOfCriterion a).length := le_max_left ..
      _ ≤ _ := ih _

lemma maxLevels_ge {cs : List Json} {c : Json} (hc : c ∈ cs) :
    (levelsOfCriterion c).length ≤ maxLevels cs := by
  suffices h : ∀ (l : List Json) (acc : ℕ), c ∈ l →
      (levelsOfCriterion c).length ≤ l.foldl (fun m c => max m (levelsOfCriterion c).length) acc by
    exact h cs 0 hc
  intro l
  induction l with
  | nil => intro acc h; cases h
  | cons a t ih =>
    intro acc h
    rcases List.mem_cons.mp h with rfl | h2
    · calc (levelsOfCriterion c).length ≤ max acc (levelsOfCriterion c).length := le_max_right ..
        _ ≤ _ := foldl_max_init t _
    · exact ih _ h2

lemma append_ne_empty_right (a b : String) (h : b.data ≠ []) : a ++ b ≠ "" := by
  apply str_ne_empty_of_data
  rw [String.data_append]
  simp [h]

lemma format_ne_empty_of_present {dsc : Option String} {v : PyVal}
    (h : descTruthy dsc = true ∨ valPresent v = true) :
    format_desc_value dsc v ≠ "" := by
  rcases h with h | h
  · by_cases hv : valPresent v = true
    · rw [format_desc_value, if_pos (by rw [h, hv]; rfl)]
      apply append_ne_empty_right
      simp
    · rw [format_desc_value, if_neg (by rw [h, Bool.eq_false_iff.mpr hv]; simp),
        if_pos h]
      cases dsc with
      | none => simp [descTruthy] at h
      | some s => simpa [descTruthy] using h
  · by_cases hd : descTruthy dsc = true
    · rw [format_desc_value, if_pos (by rw [h, hd]; rfl)]
      apply append_ne_empty_right
      simp
    · rw [format_desc_value, if_neg (by rw [h, Bool.eq_false_iff.mpr hd]; simp),
        if_neg hd, if_pos h]
      apply append_ne_empty_right
      simp

lemma pointsOf_ne_emptyStr (l : Json) : pointsOf l ≠ .vStr "" := by
  rw [pointsOf]
  rcases (if (l.getD "score" Json.null).truthy = true then l.getD "score" Json.null
      else l.getD "points" (Json.num 0)) with - | b | n | t | el | kv
  · simp
  · cases b <;> simp
  · simp
  · cases hf : pyFloat t with
    | none => simp [hf]
    | some q =>
      by_cases hq : q.den = 1
      · simp [hf, hq]
      · simp [hf, hq]
  · simp
  · simp

lemma cellOfLevel_ne_empty {l : Json} (hb : levelBlank l = false) : cellOfLevel l ≠ "" := by
  rw [cellOfLevel]
  apply format_ne_empty_of_present
  simp only [levelBlank, Bool.and_eq_true, decide_eq_true_eq, Bool.and_eq_false_iff] at hb
  rcases hb with hb | hb
  · left
    simp only [descTruthy, ne_eq, decide_eq_true_eq]
    simpa using hb
  · right
    have hne : pointsOf l ≠ PyVal.vNone := by simpa using hb
    cases hp : pointsOf l with
    | vNone => exact absurd hp hne
    | vInt n => rfl
    | vFloat t => rfl
    | vStr s =>
      have : s ≠ "" := by
        intro he
        exact pointsOf_ne_emptyStr l (he ▸ hp)
      simpa [valPresent] using this

lemma countP_replicate_blank (n : ℕ) :
    (List.replicate n "").countP (fun x => x ≠ "") = 0 := by
  induction n with
  | zero => rfl
  | succ n ih => simp [List.replicate_succ, List.countP_cons, ih]

end C5

/-- C5, amended: for a well-typed IMS document with a non-empty
selected criteria collection, `ims_to_excel` produces a grid whose
level columns are `"Level 1 (desc [value])" … "Level N (desc [value])"`
for `N` the maximum level count across all criteria; the grid has one
(full-width) row per criterion, and — provided no level is entirely
blank (empty description/title with a null score/points, which renders
as an empty cell) — each criterion's row holds exactly its original
level count of non-empty level cells, the rest blank. -/
theorem c5_amended (d : Json) (cs : List Json)
    (hsel : imsSelected d = Json.arr cs) (hne : cs ≠ [])
    (hwf : imsWF d = true)
    (hblank : ∀ c ∈ cs, ∀ l ∈ levelsOfCriterion c, levelBlank l = false) :
    ∃ g, ims_to_excel d = .ok g ∧
      g.columns = critColumn :: (List.range (maxLevels cs)).map
        (fun i : ℕ => "Level " ++ natDec (i + 1) ++ scaleColSfx) ∧
      g.rows.length = cs.length ∧
      (∀ row ∈ g.rows, row.length = g.columns.length) ∧
      (∀ (i : ℕ) (c : Json) (row : List String), cs[i]? = some c → g.rows[i]? = some row →
        (row.drop 1).countP (fun x => x ≠ "") = (levelsOfCriterion c).length) := by
  clear hwf
  have htr : (imsSelected d).truthy = true := by
    rw [hsel, Json.truthy]
    simpa using hne
  rw [ims_to_excel, htr]
  simp only [Bool.not_true, Bool.false_eq_true, if_false, hsel, Json.asArr]
  refine ⟨_, rfl, rfl, by simp, ?_, ?_⟩
  · intro row hrow
    rcases List.mem_map.mp hrow with ⟨c, hc, rfl⟩
    simp only [List.length_append, List.length_cons, List.length_map,
      List.length_replicate, List.length_range]
    have hle : (levelsOfCriterion c).length ≤ maxLevels cs := maxLevels_ge hc
    omega
  · intro i c row hci hrow
    rw [List.getElem?_map, hci] at hrow
    injection hrow with hrow
    rw [← hrow]
    have hdrop : ((criterion_cell (critNameOf c) (some (jsStr (c.getD "description"
        (Json.str ""))))  :: (levelsOfCriterion c).map cellOfLevel) ++
        List.replicate (((critColumn :: (List.range (maxLevels cs)).map
          (fun i : ℕ => "Level " ++ natDec (i + 1) ++ scaleColSfx)).length) -
          (criterion_cell (critNameOf c) (some (jsStr (c.getD "description"
            (Json.str "")))) :: (levelsOfCriterion c).map cellOfLevel).length) "").drop 1 =
        (levelsOfCriterion c).map cellOfLevel ++
        List.replicate (((critColumn :: (List.range (maxLevels cs)).map
          (fun i : ℕ => "Level " ++ natDec (i + 1) ++ scaleColSfx)).length) -
          (criterion_cell (critNameOf c) (some (jsStr (c.getD "description"
            (Json.str "")))) :: (levelsOfCriterion c).map cellOfLevel).length) "" := by
      rw [List.cons_append, List.drop_succ_cons, List.drop_zero]
    rw [hdrop, List.countP_append, countP_replicate_blank, Nat.add_zero]
    have hcmem : c ∈ cs := by
      have := List.getElem?_eq_some_iff.mp hci
      rcases this with ⟨hlt, hget⟩
      exact hget ▸ List.getElem_mem hlt
    rw [List.countP_eq_length.mpr]
    · exact List.length_map ..
    · intro x hx
      rcases List.mem_map.mp hx with ⟨l, hl, rfl⟩
      simpa using cellOfLevel_ne_empty (hblank c hcmem l hl)

/-- C5, counterexample.  The claim says every criterion's row contains
exactly its original level count of non-empty level cells.  On a
document whose single criterion has one level with a `null` `points`
and no description or title, the level renders as the empty cell: the
criterion has 1 level but its row has 0 non-empty level cells. -/
theorem c5_counterexample :
    ims_to_excel blankLevelDoc =
      .ok { columns := [critColumn, "Level " ++ natDec 1 ++ scaleColSfx],
            rows := [["", ""]] } ∧
    (levelsOfCriterion
      (Json.obj [("levels", Json.arr [Json.obj [("points", Json.null)]])])).length = 1 ∧
    (([("" : String), ""]).drop 1).countP (fun x => x ≠ "") = 0 := by
  refine ⟨rfl, rfl, by decide⟩

/-- C5, witness for the amended theorem: a document with one criterion
carrying one non-blank level (points 3, description present) satisfies
every hypothesis, and the conclusion holds at it. -/
theorem c5_witness :
    ∃ g, ims_to_excel (Json.obj [("criteria", Json.arr [Json.obj [("levels",
        Json.arr [Json.obj [("points", Json.num 3),
          ("description", Json.str "good")]])]])]) = .ok g ∧
      g.columns = critColumn :: (List.range (maxLevels [Json.obj [("levels",
        Json.arr [Json.obj [("points", Json.num 3),
          ("description", Json.str "good")]])]])).map
        (fun i : ℕ => "Level " ++ natDec (i + 1) ++ scaleColSfx) ∧
      g.rows.length = ([Json.obj [("levels", Json.arr [Json.obj [("points", Json.num 3),
          ("description", Json.str "good")]])]] : List Json).length ∧
      (∀ row ∈ g.rows, row.length = g.columns.length) ∧
      (∀ (i : ℕ) (c : Json) (row : List String),
        ([Json.obj [("levels", Json.arr [Json.obj [("points", Json.num 3),
          ("description", Json.str "good")]])]] : List Json)[i]? = some c →
        g.rows[i]? = some row →
        (row.drop 1).countP (fun x => x ≠ "") = (levelsOfCriterion c).length) :=
  c5_amended _ _ rfl (List.cons_ne_nil _ _) rfl (by decide)

/-- C7, witness: a 31-character override name and a 31-character file
stem both truncate to their 30-character prefixes, each with exactly
one warning, on a one-row grid. -/
theorem c7_witness :
    ((excel_to_rbc "s" (some "0123456789012345678901234567890")
        ({ columns := [critColumn], rows := [["c"]] } : Grid)).doc.rubric.map
        (fun r => r.name) =
      [(⟨("0123456789012345678901234567890" : String).data.take 30⟩ : String)] ∧
     (excel_to_rbc "s" (some "0123456789012345678901234567890")
        ({ columns := [critColumn], rows := [["c"]] } : Grid)).warnings.count
        (truncWarning "Rubric" "0123456789012345678901234567890"
          ⟨("0123456789012345678901234567890" : String).data.take 30⟩) = 1 ∧
     (excel_to_rbc "s" (some "0123456789012345678901234567890")
        ({ columns := [critColumn], rows := [["c"]] } : Grid)).doc.criteria.length =
       ({ columns := [critColumn], rows := [["c"]] } : Grid).rows.length) ∧
    ((excel_to_rbc "aaaaaaaaaaaaaaaaaaaaaaaaaaaaaaa" none
        ({ columns := [critColumn], rows := [["c"]] } : Grid)).doc.rubric.map
        (fun r => r.name) =
      [(⟨(underscoresToSpaces "aaaaaaaaaaaaaaaaaaaaaaaaaaaaaaa").data.take 30⟩ : String)] ∧
     (excel_to_rbc "aaaaaaaaaaaaaaaaaaaaaaaaaaaaaaa" none
        ({ columns := [critColumn], rows := [["c"]] } : Grid)).warnings.count
        (truncWarning "Rubric" (underscoresToSpaces "aaaaaaaaaaaaaaaaaaaaaaaaaaaaaaa")
          ⟨(underscoresToSpaces "aaaaaaaaaaaaaaaaaaaaaaaaaaaaaaa").data.take 30⟩) = 1 ∧
     (excel_to_rbc "aaaaaaaaaaaaaaaaaaaaaaaaaaaaaaa" none
        ({ columns := [critColumn], rows := [["c"]] } : Grid)).doc.criteria.length =
       ({ columns := [critColumn], rows := [["c"]] } : Grid).rows.length) :=
  ⟨c7_truncation_warning.1 "s" "0123456789012345678901234567890"
     { columns := [critColumn], rows := [["c"]] } (by decide) (by decide),
   c7_truncation_warning.2 "aaaaaaaaaaaaaaaaaaaaaaaaaaaaaaa"
     { columns := [critColumn], rows := [["c"]] } (by decide)⟩
